import Mathlib

/-!
Shallow embedding of the council orchestrator (codex-rs/council) and proofs
about its specification claims.

The embedding mirrors, definition by definition:
  * `council/src/parsing.rs`  — patch-payload recognition and path safety,
  * `council/src/verify.rs`   — verification command selection,
  * `council/src/runner.rs`   — the run state machine, modelled as a
    deterministic trace of emitted events and performed side actions,
    parameterised by an oracle supplying the results of all external calls
    (git, filesystem, LLM providers) and by a cooperative cancellation point.

Strings from the Rust side are modelled as `List Char`; machine behaviour of
`str::trim`, `str::lines`, `str::contains`, `str::strip_prefix`,
`str::split`, and `str::replace` is re-implemented structurally below.
-/

namespace Council

/-! ## Rust string primitives on `List Char` -/

/-- Model of `str::starts_with` on character lists: `leadsWith p s` is true
iff `p` is a leading segment of `s`. -/
def leadsWith : List Char → List Char → Bool
  | [], _ => true
  | _ :: _, [] => false
  | a :: p, b :: s => a == b && leadsWith p s

/-- Model of `str::contains` for a literal pattern: true iff `pat` occurs
contiguously inside `hay`. -/
def containsSeq : List Char → List Char → Bool
  | [], pat => leadsWith pat []
  | h :: t, pat => leadsWith pat (h :: t) || containsSeq t pat

/-- Model of `str::strip_prefix`. -/
def stripPre (pat s : List Char) : Option (List Char) :=
  if leadsWith pat s then some (s.drop pat.length) else none

/-- Model of `str::trim` (whitespace removed from both ends). -/
def rustTrim (s : List Char) : List Char :=
  (((s.dropWhile Char.isWhitespace).reverse.dropWhile Char.isWhitespace)).reverse

/-- Split on every character satisfying `f` (model of `str::split` with a
char-set pattern); always returns at least one (possibly empty) segment. -/
def splitOnPred (f : Char → Bool) : List Char → List (List Char)
  | [] => [[]]
  | c :: t =>
    let r := splitOnPred f t
    if f c then [] :: r
    else
      match r with
      | [] => [[c]]
      | h :: rest => (c :: h) :: rest

/-- Strip one trailing carriage return, as `str::lines` does on segments that
were terminated by a newline. -/
def stripCR (l : List Char) : List Char :=
  if l.getLast? == some '\r' then l.dropLast else l

/-- Model of `str::lines`: split on newline characters; a final trailing
newline produces no empty last line; a carriage return is stripped only from
segments that were followed by a newline. -/
def rustLines (s : List Char) : List (List Char) :=
  if s.isEmpty then []
  else
    let parts := splitOnPred (fun c => c == '\n') s
    let core := parts.dropLast.map stripCR
    match parts.getLast? with
    | some [] => core
    | some last => core ++ [last]
    | none => core

/-! ## parsing.rs — patch recognition and path safety -/

def beginMarker : List Char := "*** Begin Patch".data
def endMarker : List Char := "*** End Patch".data
def addHdr : List Char := "*** Add File:".data
def updHdr : List Char := "*** Update File:".data
def delHdr : List Char := "*** Delete File:".data
def addSlash : List Char := "*** Add File: /".data
def updSlash : List Char := "*** Update File: /".data
def delSlash : List Char := "*** Delete File: /".data
def addBack : List Char := "*** Add File: \\".data
def updBack : List Char := "*** Update File: \\".data
def delBack : List Char := "*** Delete File: \\".data
def addColonSpace : List Char := "*** Add File: ".data
def updColonSpace : List Char := "*** Update File: ".data
def delColonSpace : List Char := "*** Delete File: ".data
def moveColonSpace : List Char := "*** Move to: ".data

/-- Embedding of `parsing::looks_like_apply_patch`. -/
def looks_like_apply_patch (patch : List Char) : Bool :=
  let t := rustTrim patch
  if !(containsSeq t beginMarker) || !(containsSeq t endMarker) then false
  else if !(containsSeq t addHdr || containsSeq t updHdr || containsSeq t delHdr) then false
  else if containsSeq t addSlash || containsSeq t updSlash || containsSeq t delSlash then false
  else if containsSeq t addBack || containsSeq t updBack || containsSeq t delBack then false
  else true

/-- The Windows-drive test of `parsing::validate_patch_path`: the second byte
is a colon and the first an ASCII letter (on `List Char` this coincides with
the byte test, since a colon can never be a UTF-8 continuation byte). -/
def driveLike : List Char → Bool
  | c0 :: c1 :: _ =>
    c1 == ':' && (('A' ≤ c0 && c0 ≤ 'Z') || ('a' ≤ c0 && c0 ≤ 'z'))
  | _ => false

/-- Path segments split on either separator, as in
`path.split(['/', '\\'])`. -/
def splitSeps (p : List Char) : List (List Char) :=
  splitOnPred (fun c => c == '/' || c == '\\') p

/-- Embedding of `parsing::validate_patch_path`. -/
def validate_patch_path (path : List Char) : Except (List Char) Unit :=
  if path.isEmpty then .error "Found empty file path in patch".data
  else if path.head? == some '/' || path.head? == some '\\' then
    .error ("Absolute path detected: ".data ++ path)
  else if driveLike path then
    .error ("Absolute path detected (Windows drive): ".data ++ path)
  else if (splitSeps path).any (fun seg => seg == "..".data) then
    .error ("Path traversal detected (\x27..\x27): ".data ++ path)
  else .ok ()

/-- The `or_else` chain of header strips in `parsing::validate_patch_paths`:
Add, then Update, then Delete, then Move. -/
def headerPath? (trimmed : List Char) : Option (List Char) :=
  match stripPre addColonSpace trimmed with
  | some r => some r
  | none =>
    match stripPre updColonSpace trimmed with
    | some r => some r
    | none =>
      match stripPre delColonSpace trimmed with
      | some r => some r
      | none => stripPre moveColonSpace trimmed

/-- The line loop of `parsing::validate_patch_paths` (early exit on the first
unsafe path). -/
def valLines : List (List Char) → Except (List Char) Unit
  | [] => .ok ()
  | l :: ls =>
    match headerPath? (rustTrim l) with
    | none => valLines ls
    | some p =>
      match validate_patch_path (rustTrim p) with
      | .error e => .error e
      | .ok _ => valLines ls

/-- Embedding of `parsing::validate_patch_paths`. -/
def validate_patch_paths (patch : List Char) : Except (List Char) Unit :=
  valLines (rustLines patch)

/-- Claim-side safety predicate for an extracted header path: non-empty, not
starting with a slash or backslash, no Windows drive, and no `..` segment
when split on either separator. -/
def safeRelPath (p : List Char) : Bool :=
  !p.isEmpty && !(p.head? == some '/') && !(p.head? == some '\\') && !driveLike p &&
    (splitSeps p).all (fun seg => !(seg == "..".data))

def headerColonSpaces : List (List Char) :=
  [addColonSpace, updColonSpace, delColonSpace, moveColonSpace]

/-! ## Basic lemmas about the string primitives -/

theorem leadsWith_iff (p s : List Char) :
    leadsWith p s = true ↔ ∃ r, s = p ++ r := by
  induction p generalizing s with
  | nil => simp [leadsWith]
  | cons a p ih =>
    cases s with
    | nil => simp [leadsWith]
    | cons b s =>
      simp only [leadsWith, Bool.and_eq_true, beq_iff_eq, ih]
      constructor
      · rintro ⟨h1, r, rfl⟩; exact ⟨r, by simp [h1]⟩
      · rintro ⟨r, hr⟩
        cases hr
        exact ⟨rfl, r, rfl⟩

theorem containsSeq_iff (s pat : List Char) :
    containsSeq s pat = true ↔ ∃ u v, s = u ++ pat ++ v := by
  induction s with
  | nil =>
    simp only [containsSeq, leadsWith_iff]
    constructor
    · rintro ⟨r, hr⟩
      rcases List.append_eq_nil.mp hr.symm with ⟨hp, hrr⟩
      exact ⟨[], [], by simp [hp]⟩
    · rintro ⟨u, v, huv⟩
      rcases List.append_eq_nil.mp huv.symm with ⟨h1, h2⟩
      rcases List.append_eq_nil.mp h1 with ⟨hp, hv⟩
      exact ⟨[], by simp [hv]⟩
  | cons c t ih =>
    simp only [containsSeq, Bool.or_eq_true, leadsWith_iff, ih]
    constructor
    · rintro (⟨r, hr⟩ | ⟨u, v, hr⟩)
      · exact ⟨[], r, by simpa using hr⟩
      · exact ⟨c :: u, v, by simp [hr]⟩
    · rintro ⟨u, v, huv⟩
      cases u with
      | nil => exact Or.inl ⟨v, by simpa using huv⟩
      | cons x u =>
        simp only [List.cons_append] at huv
        injection huv with h1 h2
        exact Or.inr ⟨u, v, by simpa [List.append_assoc] using h2⟩

theorem leadsWith_length {p s : List Char} (h : leadsWith p s = true) :
    p.length ≤ s.length := by
  rcases (leadsWith_iff p s).mp h with ⟨r, rfl⟩
  simp

theorem leadsWith_mutex : ∀ (s p q : List Char),
    leadsWith p s = true → leadsWith q s = true → p.length ≤ q.length →
    leadsWith p q = true := by
  intro s
  induction s with
  | nil =>
    intro p q hp hq _
    cases p with
    | nil => simp [leadsWith]
    | cons a p => simp [leadsWith] at hp
  | cons c t ih =>
    intro p q hp hq hlen
    cases p with
    | nil => simp [leadsWith]
    | cons a p =>
      cases q with
      | nil => simp at hlen
      | cons b q =>
        simp only [leadsWith, Bool.and_eq_true, beq_iff_eq] at hp hq ⊢
        refine ⟨hp.1.trans hq.1.symm, ?_⟩
        exact ih p q hp.2 hq.2 (by simpa using hlen)

theorem boolEq_of_iff {a b : Bool} (h : a = true ↔ b = true) : a = b := by
  cases a <;> cases b <;> simp_all

/-- An occurrence of a pattern whose first character is not whitespace
survives the removal of leading whitespace. -/
theorem containsSeq_dropWhile {p0 : Char} {pr : List Char}
    (h0 : p0.isWhitespace = false) :
    ∀ s : List Char,
      containsSeq (s.dropWhile Char.isWhitespace) (p0 :: pr) =
        containsSeq s (p0 :: pr) := by
  intro s
  induction s with
  | nil => simp
  | cons c t ih =>
    cases hc : c.isWhitespace with
    | false => simp [List.dropWhile_cons, hc]
    | true =>
      have hne : (p0 == c) = false := by
        rw [beq_eq_false_iff_ne]
        rintro rfl
        rw [hc] at h0
        cases h0
      simp [List.dropWhile_cons, hc, containsSeq, leadsWith, hne, ih]

theorem containsSeq_reverse (s pat : List Char) :
    containsSeq s.reverse pat.reverse = containsSeq s pat := by
  apply boolEq_of_iff
  rw [containsSeq_iff, containsSeq_iff]
  constructor
  · rintro ⟨u, v, huv⟩
    refine ⟨v.reverse, u.reverse, ?_⟩
    have h := congrArg List.reverse huv
    simpa [List.reverse_append, List.append_assoc] using h
  · rintro ⟨u, v, rfl⟩
    exact ⟨v.reverse, u.reverse, by simp [List.reverse_append, List.append_assoc]⟩

/-- A pattern with non-whitespace endpoints occurs in a string iff it occurs
in the string's trim. This justifies reading the `contains` checks that
`looks_like_apply_patch` performs on the trimmed payload as checks on the
payload itself. -/
theorem containsSeq_rustTrim (p0 : Char) (pr : List Char)
    (h0 : p0.isWhitespace = false)
    (hl : ((p0 :: pr).getLast (by simp)).isWhitespace = false) (s : List Char) :
    containsSeq (rustTrim s) (p0 :: pr) = containsSeq s (p0 :: pr) := by
  have hsplit : (p0 :: pr).reverse =
      (p0 :: pr).getLast (by simp) :: (p0 :: pr).dropLast.reverse := by
    conv_lhs => rw [← List.dropLast_append_getLast (l := p0 :: pr) (by simp)]
    simp
  calc containsSeq (rustTrim s) (p0 :: pr)
      = containsSeq (((s.dropWhile Char.isWhitespace).reverse.dropWhile
          Char.isWhitespace).reverse) (((p0 :: pr).reverse).reverse) := by
        simp [rustTrim]
    _ = containsSeq ((s.dropWhile Char.isWhitespace).reverse.dropWhile
          Char.isWhitespace) ((p0 :: pr).reverse) := by
        rw [containsSeq_reverse]
    _ = containsSeq ((s.dropWhile Char.isWhitespace).reverse) ((p0 :: pr).reverse) := by
        rw [hsplit]
        exact containsSeq_dropWhile hl _
    _ = containsSeq (s.dropWhile Char.isWhitespace) (p0 :: pr) := by
        rw [← containsSeq_reverse (s.dropWhile Char.isWhitespace) (p0 :: pr)]
    _ = containsSeq s (p0 :: pr) := containsSeq_dropWhile h0 _

/-- Convenience form of `containsSeq_rustTrim` with decidable side conditions. -/
theorem containsSeq_rustTrim2 (pat : List Char) (hne : pat.isEmpty = false)
    (h0 : pat.head?.all (fun c => !c.isWhitespace) = true)
    (hl : pat.getLast?.all (fun c => !c.isWhitespace) = true) (s : List Char) :
    containsSeq (rustTrim s) pat = containsSeq s pat := by
  cases pat with
  | nil => cases hne
  | cons p0 pr =>
    have hh : p0.isWhitespace = false := by
      simpa using h0
    have hlast : ((p0 :: pr).getLast (by simp)).isWhitespace = false := by
      rw [List.getLast?_eq_getLast (p0 :: pr) (by simp)] at hl
      simpa using hl
    exact containsSeq_rustTrim p0 pr hh hlast s

/-- Boolean shape of the early-return chain in `looks_like_apply_patch`. -/
theorem ifChainEq : ∀ a b c d e f g h i j k : Bool,
    (if !a || !b then false
     else if !(c || d || e) then false
     else if f || g || h then false
     else if i || j || k then false
     else true)
    = (a && b && (c || d || e) && !f && !g && !h && !i && !j && !k) := by
  decide

/-- `looks_like_apply_patch` as a conjunction of `contains` checks on the
trimmed payload. -/
theorem looks_like_eq (P : List Char) :
    looks_like_apply_patch P =
      (containsSeq (rustTrim P) beginMarker && containsSeq (rustTrim P) endMarker &&
       (containsSeq (rustTrim P) addHdr || containsSeq (rustTrim P) updHdr ||
        containsSeq (rustTrim P) delHdr) &&
       !containsSeq (rustTrim P) addSlash && !containsSeq (rustTrim P) updSlash &&
       !containsSeq (rustTrim P) delSlash &&
       !containsSeq (rustTrim P) addBack && !containsSeq (rustTrim P) updBack &&
       !containsSeq (rustTrim P) delBack) := by
  simp only [looks_like_apply_patch]
  exact ifChainEq _ _ _ _ _ _ _ _ _ _ _

/-- The `or_else` chain of `validate_patch_paths` resolves to the unique
matching header: the four header strings are mutually non-overlapping. -/
theorem headerPath?_of_leadsWith (pre t : List Char) (hmem : pre ∈ headerColonSpaces)
    (h : leadsWith pre t = true) : headerPath? t = some (t.drop pre.length) := by
  have ruleOut : ∀ a b : List Char, leadsWith b t = true →
      (if a.length ≤ b.length then leadsWith a b = false else leadsWith b a = false) →
      leadsWith a t = false := by
    intro a b hb hcond
    cases hA : leadsWith a t with
    | false => rfl
    | true =>
      by_cases hlen : a.length ≤ b.length
      · rw [if_pos hlen] at hcond
        rw [leadsWith_mutex t a b hA hb hlen] at hcond
        cases hcond
      · rw [if_neg hlen] at hcond
        rw [leadsWith_mutex t b a hb hA (le_of_not_le hlen)] at hcond
        cases hcond
  simp only [headerColonSpaces, List.mem_cons, List.not_mem_nil, or_false] at hmem
  rcases hmem with rfl | rfl | rfl | rfl
  · simp [headerPath?, stripPre, h]
  · have h1 : leadsWith addColonSpace t = false := ruleOut _ _ h (by decide)
    simp [headerPath?, stripPre, h, h1]
  · have h1 : leadsWith addColonSpace t = false := ruleOut _ _ h (by decide)
    have h2 : leadsWith updColonSpace t = false := ruleOut _ _ h (by decide)
    simp [headerPath?, stripPre, h, h1, h2]
  · have h1 : leadsWith addColonSpace t = false := ruleOut _ _ h (by decide)
    have h2 : leadsWith updColonSpace t = false := ruleOut _ _ h (by decide)
    have h3 : leadsWith delColonSpace t = false := ruleOut _ _ h (by decide)
    simp [headerPath?, stripPre, h, h1, h2, h3]

theorem boolNotTrue {b : Bool} (h : ¬(b = true)) : b = false := by
  cases b
  · rfl
  · exact absurd rfl h

theorem all_not_eq_not_any {α : Type} (xs : List α) (f : α → Bool) :
    xs.all (fun x => !f x) = !xs.any f := by
  induction xs <;> simp_all

/-- Soundness of the path validator against the claim-side predicate. -/
theorem validate_patch_path_ok_iff (p : List Char) :
    validate_patch_path p = .ok () ↔ safeRelPath p = true := by
  have hsra : safeRelPath p = true ↔
      (p.isEmpty = false ∧ (p.head? == some '/') = false ∧ (p.head? == some '\\') = false ∧
       driveLike p = false ∧ (splitSeps p).any (fun seg => seg == "..".data) = false) := by
    simp only [safeRelPath, all_not_eq_not_any (splitSeps p) (fun seg => seg == "..".data),
      Bool.and_eq_true, Bool.not_eq_true']
    tauto
  rw [hsra]
  simp only [validate_patch_path]
  split_ifs with h1 h2 h3 h4
  · constructor
    · intro h; exact absurd h (by simp)
    · intro h; exact absurd h1 (by simp [h.1])
  · constructor
    · intro h; exact absurd h (by simp)
    · intro h
      rcases (by simpa using h2 :
        (p.head? == some '/') = true ∨ (p.head? == some '\\') = true) with hc | hc
      · exact absurd hc (by simp [h.2.1])
      · exact absurd hc (by simp [h.2.2.1])
  · constructor
    · intro h; exact absurd h (by simp)
    · intro h; exact absurd h3 (by simp [h.2.2.2.1])
  · constructor
    · intro h; exact absurd h (by simp)
    · intro h; exact absurd h4 (by simp [h.2.2.2.2])
  · constructor
    · intro _
      have hb : (p.head? == some '/') = false ∧ (p.head? == some '\\') = false := by
        constructor <;> (apply boolNotTrue; intro hx; exact h2 (by simp [hx]))
      exact ⟨boolNotTrue h1, hb.1, hb.2, boolNotTrue h3, boolNotTrue h4⟩
    · intro _; rfl

/-- Every header line that `valLines` accepted carries a validated path. -/
theorem valLines_ok_sound : ∀ L : List (List Char), valLines L = .ok () →
    ∀ l ∈ L, ∀ p, headerPath? (rustTrim l) = some p →
      validate_patch_path (rustTrim p) = .ok () := by
  intro L
  induction L with
  | nil => simp
  | cons l ls ih =>
    intro hok l' hl' p hp
    rcases List.mem_cons.mp hl' with rfl | hmem
    · simp only [valLines, hp] at hok
      cases hv : validate_patch_path (rustTrim p) with
      | error e => simp only [hv] at hok; exact Except.noConfusion hok
      | ok u => cases u; rfl
    · cases hh : headerPath? (rustTrim l) with
      | none =>
        simp only [valLines, hh] at hok
        exact ih hok l' hmem p hp
      | some q =>
        simp only [valLines, hh] at hok
        cases hv : validate_patch_path (rustTrim q) with
        | error e => simp only [hv] at hok; exact Except.noConfusion hok
        | ok u => simp only [hv] at hok; exact ih hok l' hmem p hp

theorem valLines_of_no_header : ∀ L : List (List Char),
    (∀ l ∈ L, headerPath? (rustTrim l) = none) → valLines L = .ok () := by
  intro L
  induction L with
  | nil => intro _; rfl
  | cons l ls ih =>
    intro h
    simp only [valLines, h l (by simp)]
    exact ih fun x hx => h x (List.mem_cons_of_mem _ hx)

/-! ## Claim C1 -/

/-- C1: every patch payload accepted by both `looks_like_apply_patch` and
`validate_patch_paths` contains the Begin and End markers, and every line
whose trimmed text starts with one of the four `*** ... : ` headers carries a
path that is non-empty, not absolute (no leading slash or backslash, no
Windows drive prefix) and free of `..` segments on either separator. -/
theorem c1_accepted_patch_payloads_are_safe : ∀ P : List Char,
    looks_like_apply_patch P = true → validate_patch_paths P = .ok () →
    (containsSeq P beginMarker && containsSeq P endMarker &&
     (rustLines P).all (fun l => headerColonSpaces.all (fun pre =>
        !(leadsWith pre (rustTrim l)) ||
          safeRelPath (rustTrim ((rustTrim l).drop pre.length))))) = true := by
  intro P hlook hval
  simp only [looks_like_eq, Bool.and_eq_true] at hlook
  obtain ⟨⟨⟨⟨⟨⟨⟨⟨ha, hb⟩, _⟩, _⟩, _⟩, _⟩, _⟩, _⟩, _⟩ := hlook
  have hm1 : containsSeq P beginMarker = true := by
    rw [← containsSeq_rustTrim2 beginMarker (by decide) (by decide) (by decide) P]
    exact ha
  have hm2 : containsSeq P endMarker = true := by
    rw [← containsSeq_rustTrim2 endMarker (by decide) (by decide) (by decide) P]
    exact hb
  have hall : ((rustLines P).all (fun l => headerColonSpaces.all (fun pre =>
      !(leadsWith pre (rustTrim l)) ||
        safeRelPath (rustTrim ((rustTrim l).drop pre.length))))) = true := by
    simp only [List.all_eq_true]
    intro l hl pre hpre
    cases hlead : leadsWith pre (rustTrim l) with
    | false => simp
    | true =>
      have hp := headerPath?_of_leadsWith pre (rustTrim l) hpre hlead
      have hv := valLines_ok_sound (rustLines P) hval l hl _ hp
      have hsafe := (validate_patch_path_ok_iff _).mp hv
      simp [hsafe]
  simp [hm1, hm2, hall]

def c1WitnessPatch : List Char :=
  "*** Begin Patch\n*** Add File: a.py\n+x\n*** End Patch".data

theorem c1_accepted_patch_payloads_are_safe_witness :
    looks_like_apply_patch c1WitnessPatch = true ∧
    validate_patch_paths c1WitnessPatch = .ok () ∧
    (containsSeq c1WitnessPatch beginMarker && containsSeq c1WitnessPatch endMarker &&
     (rustLines c1WitnessPatch).all (fun l => headerColonSpaces.all (fun pre =>
        !(leadsWith pre (rustTrim l)) ||
          safeRelPath (rustTrim ((rustTrim l).drop pre.length))))) = true :=
  ⟨by decide, by rfl,
    c1_accepted_patch_payloads_are_safe c1WitnessPatch (by decide) (by rfl)⟩

/-! ## Claim C5 -/

/-- Spec-side predicate for C5, translated from the spec sentence: the patch
contains both markers, at least one of the three file headers, and no header
immediately followed by an absolute path, where absolute covers a leading
slash, a leading backslash, or a Windows drive letter `X:`. -/
def headerDriveAfter (P hdr : List Char) : Bool :=
  (List.tails P).any (fun s => leadsWith hdr s && driveLike (s.drop hdr.length))

def looks_like_spec_model (P : List Char) : Bool :=
  containsSeq P beginMarker && containsSeq P endMarker &&
  (containsSeq P addHdr || containsSeq P updHdr || containsSeq P delHdr) &&
  !containsSeq P addSlash && !containsSeq P updSlash && !containsSeq P delSlash &&
  !containsSeq P addBack && !containsSeq P updBack && !containsSeq P delBack &&
  !headerDriveAfter P addColonSpace && !headerDriveAfter P updColonSpace &&
  !headerDriveAfter P delColonSpace

def c5DrivePatch : List Char :=
  "*** Begin Patch\n*** Add File: C:\\X\\y\n*** End Patch".data

/-- C5 counterexample: a payload whose Add-File header is immediately
followed by a Windows drive path is accepted by `looks_like_apply_patch`,
although the spec-side characterization rejects it. -/
theorem c5_counterexample_drive_path_accepted :
    looks_like_apply_patch c5DrivePatch = true ∧
    looks_like_spec_model c5DrivePatch = false := by
  constructor
  · decide
  · decide

/-- Claim-side amended characterization of `looks_like_apply_patch`: markers
present, at least one file header present, and no header immediately followed
by a slash or backslash — Windows drive letters after a header are NOT
rejected by this check. -/
def looks_like_amended_model (P : List Char) : Bool :=
  containsSeq P beginMarker && containsSeq P endMarker &&
  (containsSeq P addHdr || containsSeq P updHdr || containsSeq P delHdr) &&
  !containsSeq P addSlash && !containsSeq P updSlash && !containsSeq P delSlash &&
  !containsSeq P addBack && !containsSeq P updBack && !containsSeq P delBack

/-- C5 (amended): `looks_like_apply_patch P` holds iff `P` contains both
markers, contains at least one of the Add/Update/Delete headers, and contains
no header immediately followed by `/` or `\`; drive-letter paths are not
checked here (they are caught later by `validate_patch_paths`). -/
theorem c5_looks_like_characterization :
    ∀ P : List Char, looks_like_apply_patch P = looks_like_amended_model P := by
  intro P
  rw [looks_like_eq]
  simp only [looks_like_amended_model]
  rw [containsSeq_rustTrim2 beginMarker (by decide) (by decide) (by decide) P,
    containsSeq_rustTrim2 endMarker (by decide) (by decide) (by decide) P,
    containsSeq_rustTrim2 addHdr (by decide) (by decide) (by decide) P,
    containsSeq_rustTrim2 updHdr (by decide) (by decide) (by decide) P,
    containsSeq_rustTrim2 delHdr (by decide) (by decide) (by decide) P,
    containsSeq_rustTrim2 addSlash (by decide) (by decide) (by decide) P,
    containsSeq_rustTrim2 updSlash (by decide) (by decide) (by decide) P,
    containsSeq_rustTrim2 delSlash (by decide) (by decide) (by decide) P,
    containsSeq_rustTrim2 addBack (by decide) (by decide) (by decide) P,
    containsSeq_rustTrim2 updBack (by decide) (by decide) (by decide) P,
    containsSeq_rustTrim2 delBack (by decide) (by decide) (by decide) P]

/-! ## Claim C10 -/

/-- C10: `validate_patch_paths` only validates lines whose trimmed text
starts with one of the exact colon-space header strings; a payload in which
no trimmed line starts with any of them (e.g. `*** Add File:../evil`, with no
space after the colon) passes regardless of the paths those lines mention. -/
theorem c10_only_exact_colon_space_headers_validated : ∀ P : List Char,
    ((rustLines P).all (fun l => headerColonSpaces.all (fun pre =>
      !(leadsWith pre (rustTrim l))))) = true →
    validate_patch_paths P = .ok () := by
  intro P h
  simp only [List.all_eq_true] at h
  apply valLines_of_no_header
  intro l hl
  have h4 := h l hl
  simp only [headerColonSpaces, List.mem_cons, List.not_mem_nil, or_false,
    forall_eq_or_imp, forall_eq, Bool.not_eq_true'] at h4
  obtain ⟨ha, hb, hc, hd⟩ := h4
  simp [headerPath?, stripPre, ha, hb, hc, hd]

def c10NoSpacePatch : List Char := "*** Add File:../evil".data

theorem c10_only_exact_colon_space_headers_validated_witness :
    ((rustLines c10NoSpacePatch).all (fun l => headerColonSpaces.all (fun pre =>
      !(leadsWith pre (rustTrim l))))) = true ∧
    validate_patch_paths c10NoSpacePatch = .ok () :=
  ⟨by decide, c10_only_exact_colon_space_headers_validated c10NoSpacePatch (by decide)⟩

/-! ## verify.rs — project-kind detection and command selection

Filesystem paths are modelled as lists of components; the filesystem itself
as a pair of membership predicates. -/

structure FSModel where
  isDir : List String → Bool
  pathExists : List String → Bool

/-- Generic `starts_with` on component lists (Rust `Path::starts_with` is
component-wise). -/
def seqLeads {α : Type} [BEq α] : List α → List α → Bool
  | [], _ => true
  | _ :: _, [] => false
  | a :: p, b :: s => a == b && seqLeads p s

theorem seqLeads_iff {α : Type} [BEq α] [LawfulBEq α] (p s : List α) :
    seqLeads p s = true ↔ ∃ r, s = p ++ r := by
  induction p generalizing s with
  | nil => simp [seqLeads]
  | cons a p ih =>
    cases s with
    | nil => simp [seqLeads]
    | cons b s =>
      simp only [seqLeads, Bool.and_eq_true, beq_iff_eq, ih]
      constructor
      · rintro ⟨h1, r, rfl⟩; exact ⟨r, by simp [h1]⟩
      · rintro ⟨r, hr⟩
        cases hr
        exact ⟨rfl, r, rfl⟩

theorem seqLeads_length {α : Type} [BEq α] [LawfulBEq α] {p s : List α}
    (h : seqLeads p s = true) : p.length ≤ s.length := by
  rcases (seqLeads_iff p s).mp h with ⟨r, rfl⟩
  simp

/-- Model of `Path::parent`. -/
def parentDir? : List String → Option (List String)
  | [] => none
  | p => some p.dropLast

/-- Model of `Path::ancestors` (the path, then each parent in turn, ending
with the empty path). -/
def ancGo : Nat → List String → List (List String)
  | 0, p => [p]
  | n + 1, p => if p.isEmpty then [p] else p :: ancGo n p.dropLast

def ancestorsOf (p : List String) : List (List String) := ancGo p.length p

theorem ancestorsOf_cons (p : List String) (h : p ≠ []) :
    ancestorsOf p = p :: ancestorsOf p.dropLast := by
  unfold ancestorsOf
  cases hp : p.length with
  | zero => exact absurd (List.length_eq_zero.mp hp) h
  | succ n =>
    simp only [ancGo]
    rw [if_neg (by simpa [List.isEmpty_iff] using h)]
    have hlen : p.dropLast.length = n := by
      rw [List.length_dropLast, hp]
      omega
    rw [hlen]

theorem ancestorsOf_shape (x : List String) :
    ∃ rest, ancestorsOf x = x :: rest := by
  by_cases hx : x = []
  · subst hx; exact ⟨[], rfl⟩
  · exact ⟨_, ancestorsOf_cons x hx⟩

/-- The ancestor loop of `verify::find_nearest_cargo_toml`: break when the
directory leaves the worktree root, return the first `Cargo.toml` hit, break
after inspecting the worktree root itself. -/
def goFind (fs : FSModel) (root : List String) : List (List String) → Option (List String)
  | [] => none
  | d :: rest =>
    if !(seqLeads root d) then none
    else if fs.pathExists (d ++ ["Cargo.toml"]) then some (d ++ ["Cargo.toml"])
    else if d == root then none
    else goFind fs root rest

/-- Embedding of `verify::find_nearest_cargo_toml`. -/
def find_nearest_cargo_toml (fs : FSModel) (root target : List String) :
    Option (List String) :=
  match (if fs.isDir target then some target else parentDir? target) with
  | none => none
  | some start => goFind fs root (ancestorsOf start)

/-- Claim-side description of the walk: take the ancestor chain of the start
directory while it stays inside the worktree root, and pick the first
directory holding a `Cargo.toml`. -/
def nearestManifestSpec (fs : FSModel) (root start : List String) :
    Option (List String) :=
  (((ancestorsOf start).takeWhile (fun d => seqLeads root d)).find?
      (fun d => fs.pathExists (d ++ ["Cargo.toml"]))).map (fun d => d ++ ["Cargo.toml"])

theorem goFind_eq_spec (fs : FSModel) (root : List String) :
    ∀ n (start : List String), start.length ≤ n →
      goFind fs root (ancestorsOf start) = nearestManifestSpec fs root start := by
  intro n
  induction n with
  | zero =>
    intro start hlen
    have hs : start = [] := List.length_eq_zero.mp (Nat.le_zero.mp hlen)
    subst hs
    cases hr : seqLeads root [] with
    | false => simp [ancestorsOf, ancGo, goFind, nearestManifestSpec, hr]
    | true =>
      have hroot : root = [] := by
        rcases (seqLeads_iff root []).mp hr with ⟨r, h⟩
        rcases List.append_eq_nil.mp h.symm with ⟨h1, _⟩
        exact h1
      subst hroot
      by_cases hm : fs.pathExists ["Cargo.toml"] <;>
        simp [ancestorsOf, ancGo, goFind, nearestManifestSpec, hr, hm]
  | succ n ih =>
    intro start hlen
    by_cases hs : start = []
    · subst hs
      exact ih [] (by simp)
    · rw [ancestorsOf_cons start hs]
      rw [nearestManifestSpec, ancestorsOf_cons start hs]
      cases hr : seqLeads root start with
      | false => simp [goFind, hr]
      | true =>
        by_cases hm : fs.pathExists (start ++ ["Cargo.toml"])
        · simp [goFind, hr, hm]
        · by_cases hroot : start = root
          · -- inspected the root itself; the walk stops here and the
            -- remaining ancestors are outside the root
            have hstop : seqLeads root start.dropLast = false := by
              cases hv : seqLeads root start.dropLast with
              | false => rfl
              | true =>
                have h1 := seqLeads_length hv
                rw [List.length_dropLast] at h1
                rw [← hroot] at h1
                have h2 : 0 < start.length :=
                  List.length_pos.mpr hs
                omega
            obtain ⟨rest, hanc⟩ := ancestorsOf_shape start.dropLast
            have hbeq : (start == root) = true := by simp [hroot]
            simp [goFind, hr, hm, hbeq, hanc, hstop]
          · have hne : (start == root) = false := by
              simp [beq_eq_false_iff_ne, hroot]
            have hrec := ih start.dropLast
              (by rw [List.length_dropLast]; omega)
            rw [nearestManifestSpec] at hrec
            simp [goFind, hr, hm, hne, hrec]

/-- Embedding of `VerifyResult` (council/src/verify.rs). -/
structure VerifyResult where
  command : List Char
  success : Bool
  stdout : List Char
  stderr : List Char
deriving DecidableEq, Repr

def pathToStr (p : List String) : List Char := (String.intercalate "/" p).data

def cargoCheckCmd (m : List String) : List Char :=
  "cargo check --offline --manifest-path ".data ++ pathToStr m

def cargoTestCmd (m : List String) : List Char :=
  "cargo test --offline --manifest-path ".data ++ pathToStr m

def interpCmds : List (List Char) :=
  ["ruff format .".data, "ruff check .".data, "pytest -q".data]

/-- The manifest chosen by `Verifier::run_all`: nearest to the target, else
the worktree-root `Cargo.toml`, else none. -/
def manifestChoice (fs : FSModel) (root : List String)
    (target : Option (List String)) : Option (List String) :=
  let rootManifest :=
    if fs.pathExists (root ++ ["Cargo.toml"]) then some (root ++ ["Cargo.toml"]) else none
  match target with
  | some t =>
    match find_nearest_cargo_toml fs root t with
    | some m => some m
    | none => rootManifest
  | none => rootManifest

/-- The command sequence executed by `Verifier::run_all`, in order. -/
def runAllCommands (fs : FSModel) (root : List String)
    (target : Option (List String)) : List (List Char) :=
  match manifestChoice fs root target with
  | some m => [cargoCheckCmd m, cargoTestCmd m]
  | none => interpCmds

/-- Embedding of `Verifier::run_all`; `exec` supplies each command's
(success, stdout, stderr) observation (non-zero exit, spawn failure and
interruption all surface as `success = false`). -/
def runAll (fs : FSModel) (root : List String) (target : Option (List String))
    (exec : List Char → Bool × List Char × List Char) : List VerifyResult :=
  (runAllCommands fs root target).map
    (fun c => ⟨c, (exec c).1, (exec c).2.1, (exec c).2.2⟩)

/-! ## Claim C7 -/

/-- C7: `Verifier::run_all` picks the manifest nearest the target by walking
upward from the target's directory toward the worktree root (else the
worktree-root `Cargo.toml`, else the interpreted fallback), and runs exactly
`cargo check --offline --manifest-path <m>` then
`cargo test --offline --manifest-path <m>` when a manifest was found, else
exactly `ruff format .`, `ruff check .`, `pytest -q`, returning one
`VerifyResult` per command in execution order. -/
theorem c7_verifier_command_selection (fs : FSModel) (root : List String)
    (target : Option (List String)) (exec : List Char → Bool × List Char × List Char) :
    ((runAll fs root target exec).map (fun r => r.command) =
       match manifestChoice fs root target with
       | some m => [cargoCheckCmd m, cargoTestCmd m]
       | none => interpCmds) ∧
    (∀ t : List String,
       find_nearest_cargo_toml fs root t =
         match (if fs.isDir t then some t else parentDir? t) with
         | none => none
         | some start => nearestManifestSpec fs root start) ∧
    (runAll fs root target exec).length = (runAllCommands fs root target).length := by
  refine ⟨?_, ?_, by simp [runAll]⟩
  · simp only [runAll, runAllCommands, List.map_map]
    cases manifestChoice fs root target <;> rfl
  · intro t
    unfold find_nearest_cargo_toml
    cases (if fs.isDir t then some t else parentDir? t) with
    | none => rfl
    | some start => exact goFind_eq_spec fs root start.length start le_rfl

/-! ## Further Rust string machinery used by the runner -/

/-- Index of the first occurrence of `pat` in `s` (model of `str::find`). -/
def findSub? : List Char → List Char → Option Nat
  | [], pat => if leadsWith pat [] then some 0 else none
  | c :: t, pat =>
    if leadsWith pat (c :: t) then some 0 else (findSub? t pat).map (· + 1)

/-- One left-to-right pass of non-overlapping literal replacement (model of
`str::replace`), by fuel; `replaceAll` supplies fuel `s.length`. -/
def replaceFuel : Nat → List Char → List Char → List Char → List Char
  | 0, s, _, _ => s
  | _ + 1, [], _, _ => []
  | n + 1, c :: rest, pat, rep =>
    if pat.isEmpty = false ∧ leadsWith pat (c :: rest) = true then
      rep ++ replaceFuel n ((c :: rest).drop pat.length) pat rep
    else c :: replaceFuel n rest pat rep

def replaceAll (s pat rep : List Char) : List Char := replaceFuel s.length s pat rep

/-- If the pattern does not occur in the string, one-pass replacement leaves
the string unchanged. -/
theorem replaceFuel_of_not_contains :
    ∀ (n : Nat) (s pat rep : List Char), containsSeq s pat = false →
      replaceFuel n s pat rep = s := by
  intro n
  induction n with
  | zero => intro s pat rep _; rfl
  | succ n ih =>
    intro s pat rep hnc
    cases s with
    | nil => rfl
    | cons c rest =>
      simp only [containsSeq, Bool.or_eq_false_iff] at hnc
      rw [replaceFuel, if_neg (by simp [hnc.1]), ih rest pat rep hnc.2]

theorem replaceAll_of_not_contains (s pat rep : List Char)
    (h : containsSeq s pat = false) : replaceAll s pat rep = s :=
  replaceFuel_of_not_contains s.length s pat rep h

/-- Model of `str::split` with a string pattern (leftmost, non-overlapping),
by fuel; `splitOnSeq` supplies fuel `s.length`. -/
def splitSeqFuel : Nat → List Char → List Char → List (List Char)
  | 0, s, _ => [s]
  | _ + 1, [], _ => [[]]
  | n + 1, c :: rest, pat =>
    if pat.isEmpty = false ∧ leadsWith pat (c :: rest) = true then
      [] :: splitSeqFuel n ((c :: rest).drop pat.length) pat
    else
      match splitSeqFuel n rest pat with
      | [] => [[c]]
      | h :: t => (c :: h) :: t

def splitOnSeq (s pat : List Char) : List (List Char) := splitSeqFuel s.length s pat

/-- Model of `str::strip_suffix`. -/
def stripSuffixL (pat s : List Char) : Option (List Char) :=
  (stripPre pat.reverse s.reverse).map List.reverse

/-- Embedding of `parsing::extract_first_block`. -/
def extract_first_block (text tag : List Char) : Option (List Char) :=
  let openPat := '<' :: tag
  let closePat := '<' :: '/' :: (tag ++ ['>'])
  match findSub? text openPat with
  | none => none
  | some openStart =>
    let afterOpen := text.drop openStart
    match findSub? afterOpen ['>'] with
    | none => none
    | some gtRel =>
      let bodyStart := openStart + gtRel + 1
      let afterBody := text.drop bodyStart
      match findSub? afterBody closePat with
      | none => none
      | some closeRel => some (afterBody.take closeRel)

/-- Embedding of `parsing::unwrap_cdata`. -/
def unwrap_cdata (s : List Char) : List Char :=
  match stripPre "<![CDATA[".data (rustTrim s) with
  | some inner =>
    match stripSuffixL "]]>".data inner with
    | some inner2 => inner2
    | none => s
  | none => s

/-- Embedding of `parsing::extract_patch`. -/
def extract_patch (text : List Char) : Option (List Char) :=
  (extract_first_block text "patch".data).map unwrap_cdata

/-- Embedding of `parsing::extract_plan`. -/
def extract_plan (text : List Char) : Option (List Char) :=
  (extract_first_block text "plan".data).map rustTrim

/-- Embedding of `parsing::extract_error`. -/
def extract_error (text : List Char) : Option (List Char) :=
  (extract_first_block text "error".data).map rustTrim

/-- The patch-extraction fallback chain of `run_logic`: a `<patch>` block,
else the second triple-backtick segment, else the whole output. -/
def extractPatchContent (codeChange : List Char) : List Char :=
  match extract_patch codeChange with
  | some p => p
  | none =>
    if containsSeq codeChange "\x60\x60\x60".data then
      match (splitOnSeq codeChange "\x60\x60\x60".data).get? 1 with
      | some seg => seg
      | none => codeChange
    else codeChange

/-! ### serde_json pretty serialization of `Vec<VerifyResult>` -/

def hexDigitChar (n : Nat) : Char :=
  if n < 10 then Char.ofNat (48 + n) else Char.ofNat (87 + n)

def jsonEscapeChar (c : Char) : List Char :=
  if c = '"' then ['\\', '"']
  else if c = '\\' then ['\\', '\\']
  else if c = '\n' then ['\\', 'n']
  else if c = '\r' then ['\\', 'r']
  else if c = '\t' then ['\\', 't']
  else if c.toNat = 8 then ['\\', 'b']
  else if c.toNat = 12 then ['\\', 'f']
  else if c.toNat < 32 then
    ['\\', 'u', '0', '0', hexDigitChar (c.toNat / 16), hexDigitChar (c.toNat % 16)]
  else [c]

def jsonStr (s : List Char) : List Char :=
  '"' :: ((s.map jsonEscapeChar).flatten ++ ['"'])

def serVerifyItem (r : VerifyResult) : List Char :=
  "  \x7b\n    \"command\": ".data ++ jsonStr r.command ++
  ",\n    \"success\": ".data ++ (if r.success then "true".data else "false".data) ++
  ",\n    \"stdout\": ".data ++ jsonStr r.stdout ++
  ",\n    \"stderr\": ".data ++ jsonStr r.stderr ++ "\n  \x7d".data

def serVerify (rs : List VerifyResult) : List Char :=
  match rs with
  | [] => "[]".data
  | _ => "[\n".data ++ List.intercalate ",\n".data (rs.map serVerifyItem) ++ "\n]".data

/-! ## runner.rs — data model -/

/-- Embedding of `types::JobOutcome`. -/
inductive JobOutcome where
  | Success
  | Failure
  | Cancelled
deriving DecidableEq, Repr

/-- Embedding of `types::CouncilMode`. -/
inductive CouncilMode where
  | Review
  | Fix
deriving DecidableEq, Repr

def modeDebug : CouncilMode → List Char
  | .Review => "Review".data
  | .Fix => "Fix".data

/-- Embedding of `types::CouncilEvent`. -/
inductive CouncilEvent where
  | JobStarted (job_id : List Char) (mode : CouncilMode) (target : List Char)
      (head_sha : List Char) (repo_dirty : Bool)
  | PhaseStarted (phase : List Char) (step_current step_total : Nat) (detail : List Char)
  | PhaseNote (phase : List Char) (message : List Char)
  | ArtifactWritten (kind : List Char) (path : List Char)
  | CommandStarted (cmd_display : List Char)
  | CommandFinished (cmd_display : List Char) (status : List Char)
      (duration_ms : Nat) (truncated : Bool)
  | Warning (message : List Char)
  | Error (phase : List Char) (message : List Char)
  | JobFinished (outcome : JobOutcome) (summary_line : List Char)
deriving DecidableEq, Repr

/-- Observable side effects of a run, beyond events: subprocess spawns,
filesystem writes, network calls. -/
inductive SideAction where
  | gitRevParseHead
  | gitDiffQuiet
  | fsWrite (name : List Char)
  | worktreeAdd (path : List Char)
  | ctxBuild
  | runVerify (cmd : List Char)
  | llmCall (role : List Char) (message : List Char)
  | applyPatch (dir : List Char) (patch : List Char)
  | worktreeRemove (path : List Char)
  | removeDirAll (path : List Char)
deriving DecidableEq, Repr

inductive Item where
  | ev (e : CouncilEvent)
  | act (a : SideAction)
deriving DecidableEq, Repr

/-- A path component of the relative target
(`std::path::Component`-style). -/
inductive PComp where
  | normal (s : List Char)
  | curDir
  | parentDir
  | rootDir
  | drivePre
deriving DecidableEq, Repr

def unsafeComp : PComp → Bool
  | .parentDir => true
  | .rootDir => true
  | .drivePre => true
  | _ => false

/-- The target argument of a run: either an absolute path outside the repo
root (`strip_prefix` fails), or a target whose path relative to the repo root
has the given components. -/
inductive TargetSpec where
  | absOutside (display : List Char)
  | rel (comps : List PComp) (display : List Char)
deriving DecidableEq, Repr

def targetDisplay : TargetSpec → List Char
  | .absOutside d => d
  | .rel _ d => d

/-- The runner's configuration: repo root, run id (from the job directory
name), job-directory display string, prompt version. -/
structure RunCfg where
  repoRoot : List Char
  runId : List Char
  jobDirStr : List Char
  promptVersion : List Char
deriving DecidableEq, Repr

def worktreePathStr (cfg : RunCfg) : List Char :=
  cfg.repoRoot ++ "/.council/worktrees/".data ++ cfg.runId

/-- Oracle for all external interactions of one run: git metadata commands,
filesystem writes, worktree creation, context building, verification
results, client construction and the four LLM calls, patch application. -/
structure Oracle where
  headSha : Except (List Char) (List Char)
  dirty : Except (List Char) Bool
  writes : List Char → Except (List Char) Unit
  debugEnv : Bool
  worktreeCreate : Except (List Char) Unit
  targetExists : Bool
  buildBundle : Except (List Char) (List Char)
  baselineResults : List VerifyResult
  clientChair : Except (List Char) Unit
  clientGpt : Except (List Char) Unit
  clientGemini : Except (List Char) Unit
  clientImpl : Except (List Char) Unit
  gptCritique : Except (List Char) (List Char)
  geminiCritique : Except (List Char) (List Char)
  chairOut : Except (List Char) (List Char)
  implOut : Except (List Char) (List Char)
  applyRes : Except (List Char) Unit
  finalResults : List VerifyResult

/-! ## runner.rs — the state machine as a trace function -/

abbrev Trace := List Item

/-- Result of (the modelled) `run_logic`: the emitted items in order, and
either normal completion or a propagated internal error. -/
abbrev RunRes := Trace × Except (List Char) Unit

/-- Record `pre`, then either propagate an error or continue. -/
def stepT {α : Type} (pre : Trace) (r : Except (List Char) α) (k : α → RunRes) : RunRes :=
  match r with
  | .error e => (pre, .error e)
  | .ok a => ((pre ++ (k a).1 : Trace), (k a).2)

/-- Record `pre`, then continue. -/
def seqT (pre : Trace) (k : RunRes) : RunRes := ((pre ++ k.1 : Trace), k.2)

/-- Terminal emission: a final `JobFinished` and normal return. -/
def endWith (pre : Trace) (out : JobOutcome) (sum : List Char) : RunRes :=
  ((pre ++ [.ev (.JobFinished out sum)] : Trace), .ok ())

/-- A fallible `fs::write` of a run artifact. -/
def writeStep (o : Oracle) (name : List Char) (k : RunRes) : RunRes :=
  stepT [.act (.fsWrite name)] (o.writes name) (fun _ => k)

/-- `write_debug_log`: only writes (fallibly) when the debug environment
variable is set. -/
def dbgStep (o : Oracle) (name : List Char) (k : RunRes) : RunRes :=
  if o.debugEnv then stepT [.act (.fsWrite name)] (o.writes name) (fun _ => k) else k

def countFailures (rs : List VerifyResult) : Nat :=
  (rs.filter (fun r => !r.success)).length

/-- Outcome comparison at the end of a Fix run (runner.rs lines 547-561). -/
def comparePhase (baseRes finalRes : List VerifyResult) : RunRes :=
  let b := countFailures baseRes
  let f := countFailures finalRes
  let outcome :=
    if f < b then JobOutcome.Success
    else if f > b then JobOutcome.Failure
    else JobOutcome.Success
  endWith [] outcome
    ("Base failures: ".data ++ (Nat.repr b).data ++
     ", Final failures: ".data ++ (Nat.repr f).data)

/-- Apply the patch in the worktree, persist diagnostics, run the final
verification, write `verify_final.json`, compare (runner.rs section 8). -/
def applyVerifyPhase (cfg : RunCfg) (o : Oracle) (baseRes : List VerifyResult)
    (patchContent : List Char) : RunRes :=
  seqT [.ev (.PhaseStarted "Verification".data 2 2 "Applying patch and verifying...".data),
        .act (.applyPatch (worktreePathStr cfg) patchContent)] <|
  writeStep o "apply_stdout.txt".data <|
  writeStep o "apply_stderr.txt".data <|
  match o.applyRes with
  | .error e =>
    endWith [.ev (.Error "Verification".data ("Patch application failed: ".data ++ e))]
      .Failure "Patch application failed".data
  | .ok _ =>
    seqT (o.finalResults.map (fun r => Item.act (.runVerify r.command))) <|
    writeStep o "verify_final.json".data <|
    comparePhase baseRes o.finalResults

/-- Patch extraction guards (runner.rs lines 472-500): `looks_like` for v2
prompts, `validate_patch_paths` always. -/
def patchGatePhase (cfg : RunCfg) (o : Oracle) (baseRes : List VerifyResult)
    (codeChange : List Char) : RunRes :=
  let patchContent := extractPatchContent codeChange
  if cfg.promptVersion = "v2".data ∧ looks_like_apply_patch patchContent = false then
    endWith [.ev (.Error "Implementation".data
        "Generated patch failed validation (missing markers).".data)]
      .Failure "Patch validation failed".data
  else
    match validate_patch_paths patchContent with
    | .error e =>
      endWith [.ev (.Error "Implementation".data
          ("Generated patch contained unsafe paths: ".data ++ e))]
        .Failure "Patch safety check failed".data
    | .ok _ => applyVerifyPhase cfg o baseRes patchContent

/-- Implementation phase (runner.rs section 7). -/
def implementationPhase (cfg : RunCfg) (o : Oracle) (baseRes : List VerifyResult)
    (plan promptContext : List Char) : RunRes :=
  seqT [.ev (.PhaseStarted "Implementation".data 1 1 "Generating patch...".data)] <|
  stepT [.act (.llmCall "implementer".data
      ("Implement the following plan to fix the code.\n\nPlan:\n".data ++ plan ++
       "\n\nContext:\n".data ++ promptContext))] o.implOut (fun codeChange =>
    dbgStep o "debug_implementation_raw.log".data <|
    writeStep o "implementation.patch".data <|
    patchGatePhase cfg o baseRes codeChange)

/-- Planning phase (runner.rs section 6): chair call, `plan_raw.md`, v2 plan
extraction with chair-refusal detection, `plan.md`. -/
def planningPhase (cfg : RunCfg) (o : Oracle) (baseRes : List VerifyResult)
    (promptContext allCritiques : List Char) : RunRes :=
  seqT [.ev (.PhaseStarted "Planning".data 1 1 "Chair is formulating a plan...".data)] <|
  stepT [.act (.llmCall "chair".data
      ("Review the following critiques and formulate a fix plan.\n\nContext:\n".data ++
       promptContext ++ "\n\nCritiques:\n".data ++ allCritiques))] o.chairOut (fun planRaw =>
    dbgStep o "debug_plan_raw.log".data <|
    writeStep o "plan_raw.md".data <|
    let continuePlan := fun (plan : List Char) =>
      writeStep o "plan.md".data
        (implementationPhase cfg o baseRes plan promptContext)
    if cfg.promptVersion = "v2".data then
      match extract_plan planRaw with
      | some cleanPlan => continuePlan cleanPlan
      | none =>
        match extract_error planRaw with
        | some errMsg =>
          endWith [.ev (.Error "Planning".data ("Chair refused plan: ".data ++ errMsg))]
            .Failure "Chair refused plan".data
        | none => continuePlan planRaw
    else continuePlan planRaw)

/-- Criticism phase (runner.rs section 5): both critics are called with the
identical prompt; each successful critique is persisted and acknowledged with
a `PhaseNote`; a failed critique is skipped silently; an empty critique set
fails the run; Review mode terminates successfully here. -/
def criticismPhase (cfg : RunCfg) (o : Oracle) (mode : CouncilMode)
    (baseRes : List VerifyResult) (promptContext : List Char) : RunRes :=
  let criticMsg :=
    "Please review this code context and identify bugs or issues.\n\n".data ++ promptContext
  let afterCritics := fun (critiques : List (List Char)) =>
    if critiques.isEmpty then
      endWith [.ev (.Error "Criticism".data "All critics failed to respond.".data)]
        .Failure "Critics failed".data
    else if mode = CouncilMode.Review then
      endWith [] .Success "Critique complete.".data
    else
      planningPhase cfg o baseRes promptContext
        (List.intercalate "\n\n".data critiques)
  let geminiPart := fun (critiques : List (List Char)) =>
    match o.geminiCritique with
    | .error _ => afterCritics critiques
    | .ok c =>
      writeStep o "critique_gemini.md".data <|
      dbgStep o "debug_critique_gemini.log".data <|
      seqT [.ev (.PhaseNote "Criticism".data "Gemini critique received.".data)]
        (afterCritics (critiques ++ ["### Gemini Critique\n\n".data ++ c]))
  seqT [.ev (.PhaseStarted "Criticism".data 1 1 "Consulting GPT-5 & Gemini 3...".data),
        .act (.llmCall "critic_gpt".data criticMsg),
        .act (.llmCall "critic_gemini".data criticMsg)] <|
  match o.gptCritique with
  | .error _ => geminiPart []
  | .ok c =>
    writeStep o "critique_gpt.md".data <|
    dbgStep o "debug_critique_gpt.log".data <|
    seqT [.ev (.PhaseNote "Criticism".data "GPT critique received.".data)]
      (geminiPart ["### GPT Critique\n\n".data ++ c])

/-- Prompt-context assembly (runner.rs lines 276-289): the bundle JSON with
the worktree path replaced by the empty string (when the worktree path is
non-empty), surrounded by the target header and the serialized baseline
results. -/
def promptContextOf (cfg : RunCfg) (relDisplay bundleJson : List Char)
    (baseRes : List VerifyResult) : List Char :=
  let wt := worktreePathStr cfg
  let bundleDisplay := if wt.isEmpty then bundleJson else replaceAll bundleJson wt []
  "Target: \"".data ++ relDisplay ++ "\"\n\nContext Bundle:\n".data ++ bundleDisplay ++
    "\n\nBaseline Verification Results:\n".data ++ serVerify baseRes

/-- Client construction (runner.rs section 4) and the criticism fan-out. -/
def councilPhase (cfg : RunCfg) (o : Oracle) (mode : CouncilMode)
    (baseRes : List VerifyResult) (relDisplay bundleJson : List Char) : RunRes :=
  stepT [] o.clientChair (fun _ =>
  stepT [] o.clientGpt (fun _ =>
  stepT [] o.clientGemini (fun _ =>
  stepT [] o.clientImpl (fun _ =>
    criticismPhase cfg o mode baseRes
      (promptContextOf cfg relDisplay bundleJson baseRes)))))

/-- Baseline verification (Fix only; runner.rs section 3). -/
def verifyBaselinePhase (cfg : RunCfg) (o : Oracle) (mode : CouncilMode)
    (relDisplay bundleJson : List Char) : RunRes :=
  if mode = CouncilMode.Fix then
    seqT ([.ev (.PhaseStarted "Verify (Base)".data 1 2
            "Running baseline verification...".data)] ++
          o.baselineResults.map (fun r => Item.act (.runVerify r.command))) <|
    writeStep o "verify_baseline.json".data <|
    councilPhase cfg o mode o.baselineResults relDisplay bundleJson
  else councilPhase cfg o mode [] relDisplay bundleJson

/-- Context phase (runner.rs section 2): HEAD-existence check, bundle build,
`context_bundle.json` artifact. -/
def contextPhase (cfg : RunCfg) (o : Oracle) (mode : CouncilMode)
    (relDisplay : List Char) : RunRes :=
  seqT [.ev (.PhaseStarted "Context".data 1 1 "Analyzing dependencies...".data)] <|
  if o.targetExists = false then
    endWith [.ev (.Error "Context".data
        ("Target file \x27".data ++ relDisplay ++ "\x27 does not exist in HEAD.".data))]
      .Failure "Target not found in HEAD".data
  else
    stepT [.act .ctxBuild] o.buildBundle (fun bundleJson =>
    writeStep o "context_bundle.json".data <|
    seqT [.ev (.ArtifactWritten "Context Bundle".data
        (cfg.jobDirStr ++ "/context_bundle.json".data))] <|
    verifyBaselinePhase cfg o mode relDisplay bundleJson)

/-- Isolation phase (runner.rs section 1): worktree creation. Note: the
created `Worktree` value is bound to `_worktree_guard` and merely dropped at
scope exit — `Worktree` has no `Drop` impl and `Worktree::remove` is never
called by the runner, so no removal action ever enters the trace. -/
def isolationPhase (cfg : RunCfg) (o : Oracle) (mode : CouncilMode)
    (relDisplay : List Char) : RunRes :=
  seqT [.ev (.PhaseStarted "Isolation".data 1 1
      ("Preparing isolated environment (".data ++ modeDebug mode ++ ")".data))] <|
  stepT [.act (.worktreeAdd (worktreePathStr cfg))] o.worktreeCreate (fun _ =>
    contextPhase cfg o mode relDisplay)

/-- Embedding of `CouncilRunner::run_logic`: git metadata commands,
`JobStarted`, metadata artifact, target normalization and validation, then
the phase chain. -/
def runLogicItems (cfg : RunCfg) (o : Oracle) (tgt : TargetSpec)
    (mode : CouncilMode) : RunRes :=
  stepT [.act .gitRevParseHead] o.headSha (fun sha =>
  stepT [.act .gitDiffQuiet] o.dirty (fun dirty =>
  seqT [.ev (.JobStarted cfg.runId mode (targetDisplay tgt) sha dirty)] <|
  writeStep o "job_metadata.json".data <|
  match tgt with
  | .absOutside d =>
    endWith [.ev (.Error "Context".data
        ("Target \x27".data ++ d ++ "\x27 is outside repo root \x27".data ++
         cfg.repoRoot ++ "\x27.".data))]
      .Failure "Target outside repo root".data
  | .rel comps d =>
    if comps.isEmpty then
      endWith [.ev (.Error "Context".data "Target path is empty.".data)]
        .Failure "Invalid target path".data
    else if comps.any unsafeComp then
      endWith [.ev (.Error "Context".data
          ("Target path \x27".data ++ d ++ "\x27 contains unsafe components.".data))]
        .Failure "Invalid target path".data
    else isolationPhase cfg o mode d))

def errSuffix : Except (List Char) Unit → Trace
  | .ok _ => []
  | .error e =>
    [.ev (.Error "Job Execution".data e),
     .ev (.JobFinished .Failure ("Internal Error: ".data ++ e))]

def cancelledItem : Item :=
  .ev (.JobFinished .Cancelled "Job cancelled by user.".data)

/-- Embedding of `CouncilRunner::run`: the `select!` between the cooperative
cancellation token and `run_logic`. `cancelAt = some k` means the token won
the race at the k-th suspension point: the items already produced stay on the
channel and a single `JobFinished[Cancelled]` is emitted; `cancelAt` beyond
the trace (or `none`) means `run_logic` finished first, with the error path
appending `Error` and `JobFinished[Failure]`. -/
def runItems (cfg : RunCfg) (o : Oracle) (tgt : TargetSpec) (mode : CouncilMode)
    (cancelAt : Option Nat) : Trace :=
  let r := runLogicItems cfg o tgt mode
  match cancelAt with
  | none => r.1 ++ errSuffix r.2
  | some k =>
    if r.1.length ≤ k then r.1 ++ errSuffix r.2
    else r.1.take k ++ [cancelledItem]

def eventsOf (tr : Trace) : List CouncilEvent :=
  tr.filterMap (fun i => match i with | .ev e => some e | .act _ => none)

def isJFEv : CouncilEvent → Bool
  | .JobFinished _ _ => true
  | _ => false

def isJSEv : CouncilEvent → Bool
  | .JobStarted _ _ _ _ _ => true
  | _ => false

def isWarnEv : CouncilEvent → Bool
  | .Warning _ => true
  | _ => false

def itemIsJF : Item → Bool
  | .ev e => isJFEv e
  | .act _ => false

def itemIsJS : Item → Bool
  | .ev e => isJSEv e
  | .act _ => false

/-! ## Trace shape machinery -/

def noJFIn (tr : Trace) : Prop := ∀ i ∈ tr, itemIsJF i = false

/-- The discipline every `run_logic` path obeys: on normal return the trace
ends with its unique `JobFinished` item; on an internal error no
`JobFinished` was emitted. -/
def jfShape (r : RunRes) : Prop :=
  (∀ e, r.2 = .error e → noJFIn r.1) ∧
  (r.2 = .ok () → ∃ pre last, r.1 = pre ++ [last] ∧ itemIsJF last = true ∧ noJFIn pre)

/-- Item classification for every item emitted at or below a given phase:
events are neither `JobStarted` nor `Warning`, and LLM calls carry the
prompt context verbatim inside their message. -/
def ContItem (pc : List Char) : Item → Prop
  | .ev e => isJSEv e = false ∧ isWarnEv e = false
  | .act (.llmCall _ msg) => containsSeq msg pc = true
  | .act _ => True

def ItemsOkJF (Q : Item → Prop) (r : RunRes) : Prop :=
  (∀ i ∈ r.1, Q i) ∧ jfShape r

theorem noJFIn_append {a b : Trace} (ha : noJFIn a) (hb : noJFIn b) :
    noJFIn (a ++ b) := by
  intro i hi
  rcases List.mem_append.mp hi with h | h
  · exact ha i h
  · exact hb i h

theorem iok_endWith {Q : Item → Prop} (pre : Trace) (out : JobOutcome) (sum : List Char)
    (hQjf : Q (.ev (.JobFinished out sum))) (hpre : ∀ i ∈ pre, Q i)
    (hpreJF : noJFIn pre) : ItemsOkJF Q (endWith pre out sum) := by
  refine ⟨?_, ?_, ?_⟩
  · intro i hi
    rcases List.mem_append.mp hi with h | h
    · exact hpre i h
    · rcases List.mem_singleton.mp h with rfl
      exact hQjf
  · intro e he
    exact absurd he (by simp [endWith])
  · intro _
    exact ⟨pre, .ev (.JobFinished out sum), rfl, rfl, hpreJF⟩

theorem iok_stepT {Q : Item → Prop} {α : Type} (pre : Trace)
    (r : Except (List Char) α) (k : α → RunRes)
    (hpre : ∀ i ∈ pre, Q i) (hpreJF : noJFIn pre)
    (hk : ∀ a, ItemsOkJF Q (k a)) : ItemsOkJF Q (stepT pre r k) := by
  cases r with
  | error e =>
    refine ⟨hpre, ?_, ?_⟩
    · intro _ _; exact hpreJF
    · intro h; exact absurd h (by simp [stepT])
  | ok a =>
    obtain ⟨hkQ, hkErr, hkOk⟩ := hk a
    refine ⟨?_, ?_, ?_⟩
    · intro i hi
      rcases List.mem_append.mp hi with h | h
      · exact hpre i h
      · exact hkQ i h
    · intro e he
      exact noJFIn_append hpreJF (hkErr e he)
    · intro hok
      obtain ⟨p2, last, hEq, hLast, hNo⟩ := hkOk hok
      exact ⟨pre ++ p2, last, by rw [show (stepT pre (.ok a) k).1 = pre ++ (k a).1 from rfl,
        hEq, List.append_assoc], hLast, noJFIn_append hpreJF hNo⟩

theorem iok_seqT {Q : Item → Prop} (pre : Trace) (k : RunRes)
    (hpre : ∀ i ∈ pre, Q i) (hpreJF : noJFIn pre)
    (hk : ItemsOkJF Q k) : ItemsOkJF Q (seqT pre k) := by
  have h := iok_stepT (Q := Q) pre (.ok ()) (fun _ => k) hpre hpreJF (fun _ => hk)
  exact h

theorem iok_writeStep {Q : Item → Prop} (o : Oracle) (name : List Char) (k : RunRes)
    (hQ : Q (.act (.fsWrite name))) (hk : ItemsOkJF Q k) :
    ItemsOkJF Q (writeStep o name k) := by
  apply iok_stepT
  · intro i hi; rcases List.mem_singleton.mp hi with rfl; exact hQ
  · intro i hi; rcases List.mem_singleton.mp hi with rfl; rfl
  · intro _; exact hk

theorem iok_dbgStep {Q : Item → Prop} (o : Oracle) (name : List Char) (k : RunRes)
    (hQ : Q (.act (.fsWrite name))) (hk : ItemsOkJF Q k) :
    ItemsOkJF Q (dbgStep o name k) := by
  unfold dbgStep
  split
  · apply iok_stepT
    · intro i hi; rcases List.mem_singleton.mp hi with rfl; exact hQ
    · intro i hi; rcases List.mem_singleton.mp hi with rfl; rfl
    · intro _; exact hk
  · exact hk

theorem containsSeq_of_decomp {s pc : List Char} (u v : List Char)
    (h : s = u ++ pc ++ v) : containsSeq s pc = true :=
  (containsSeq_iff s pc).mpr ⟨u, v, h⟩

theorem contMap (pc : List Char) (xs : List VerifyResult) :
    ∀ i ∈ xs.map (fun r => Item.act (.runVerify r.command)), ContItem pc i := by
  intro i hi
  rcases List.mem_map.mp hi with ⟨x, _, rfl⟩
  trivial

theorem noJFMap (xs : List VerifyResult) :
    noJFIn (xs.map (fun r => Item.act (.runVerify r.command))) := by
  intro i hi
  rcases List.mem_map.mp hi with ⟨x, _, rfl⟩
  rfl

/-! ### Per-phase shape lemmas -/

theorem iok_compare (pc : List Char) (b f : List VerifyResult) :
    ItemsOkJF (ContItem pc) (comparePhase b f) := by
  simp only [comparePhase]
  apply iok_endWith
  · exact ⟨rfl, rfl⟩
  · intro i hi; cases hi
  · intro i hi; cases hi

theorem iok_applyVerify (pc : List Char) (cfg : RunCfg) (o : Oracle)
    (baseRes : List VerifyResult) (patch : List Char) :
    ItemsOkJF (ContItem pc) (applyVerifyPhase cfg o baseRes patch) := by
  unfold applyVerifyPhase
  apply iok_seqT
  · simp [ContItem, isJSEv, isWarnEv]
  · simp [noJFIn, itemIsJF, isJFEv]
  · apply iok_writeStep _ _ _ trivial
    apply iok_writeStep _ _ _ trivial
    cases o.applyRes with
    | error e =>
      apply iok_endWith
      · exact ⟨rfl, rfl⟩
      · simp [ContItem, isJSEv, isWarnEv]
      · simp [noJFIn, itemIsJF, isJFEv]
    | ok _ =>
      refine iok_seqT _ _ (contMap pc o.finalResults) (noJFMap o.finalResults) ?_
      exact iok_writeStep _ _ _ trivial (iok_compare pc baseRes o.finalResults)

theorem iok_patchGate (pc : List Char) (cfg : RunCfg) (o : Oracle)
    (baseRes : List VerifyResult) (codeChange : List Char) :
    ItemsOkJF (ContItem pc) (patchGatePhase cfg o baseRes codeChange) := by
  simp only [patchGatePhase]
  split
  · apply iok_endWith
    · exact ⟨rfl, rfl⟩
    · simp [ContItem, isJSEv, isWarnEv]
    · simp [noJFIn, itemIsJF, isJFEv]
  · split
    · apply iok_endWith
      · exact ⟨rfl, rfl⟩
      · simp [ContItem, isJSEv, isWarnEv]
      · simp [noJFIn, itemIsJF, isJFEv]
    · exact iok_applyVerify pc cfg o baseRes _

theorem iok_implementation (pc : List Char) (cfg : RunCfg) (o : Oracle)
    (baseRes : List VerifyResult) (plan : List Char) :
    ItemsOkJF (ContItem pc) (implementationPhase cfg o baseRes plan pc) := by
  unfold implementationPhase
  apply iok_seqT
  · simp [ContItem, isJSEv, isWarnEv]
  · simp [noJFIn, itemIsJF, isJFEv]
  · apply iok_stepT
    · intro i hi
      rcases List.mem_singleton.mp hi with rfl
      exact containsSeq_of_decomp
        ("Implement the following plan to fix the code.\n\nPlan:\n".data ++ plan ++
          "\n\nContext:\n".data) [] (by simp)
    · simp [noJFIn, itemIsJF, isJFEv]
    · intro codeChange
      apply iok_dbgStep _ _ _ trivial
      apply iok_writeStep _ _ _ trivial
      exact iok_patchGate pc cfg o baseRes codeChange

theorem iok_planning (pc : List Char) (cfg : RunCfg) (o : Oracle)
    (baseRes : List VerifyResult) (allCritiques : List Char) :
    ItemsOkJF (ContItem pc) (planningPhase cfg o baseRes pc allCritiques) := by
  unfold planningPhase
  apply iok_seqT
  · simp [ContItem, isJSEv, isWarnEv]
  · simp [noJFIn, itemIsJF, isJFEv]
  · apply iok_stepT
    · intro i hi
      rcases List.mem_singleton.mp hi with rfl
      exact containsSeq_of_decomp
        "Review the following critiques and formulate a fix plan.\n\nContext:\n".data
        ("\n\nCritiques:\n".data ++ allCritiques) (by simp)
    · simp [noJFIn, itemIsJF, isJFEv]
    · intro planRaw
      apply iok_dbgStep _ _ _ trivial
      apply iok_writeStep _ _ _ trivial
      split
      · split
        · exact iok_writeStep _ _ _ trivial (iok_implementation pc cfg o baseRes _)
        · split
          · apply iok_endWith
            · exact ⟨rfl, rfl⟩
            · simp [ContItem, isJSEv, isWarnEv]
            · simp [noJFIn, itemIsJF, isJFEv]
          · exact iok_writeStep _ _ _ trivial (iok_implementation pc cfg o baseRes _)
      · exact iok_writeStep _ _ _ trivial (iok_implementation pc cfg o baseRes _)

theorem iok_afterCritics (pc : List Char) (cfg : RunCfg) (o : Oracle)
    (mode : CouncilMode) (baseRes : List VerifyResult) (critiques : List (List Char)) :
    ItemsOkJF (ContItem pc)
      (if critiques.isEmpty then
        endWith [.ev (.Error "Criticism".data "All critics failed to respond.".data)]
          .Failure "Critics failed".data
      else if mode = CouncilMode.Review then
        endWith [] .Success "Critique complete.".data
      else
        planningPhase cfg o baseRes pc (List.intercalate "\n\n".data critiques)) := by
  split
  · apply iok_endWith
    · exact ⟨rfl, rfl⟩
    · simp [ContItem, isJSEv, isWarnEv]
    · simp [noJFIn, itemIsJF, isJFEv]
  · split
    · apply iok_endWith
      · exact ⟨rfl, rfl⟩
      · intro i hi; cases hi
      · intro i hi; cases hi
    · exact iok_planning pc cfg o baseRes _

theorem iok_criticism (pc : List Char) (cfg : RunCfg) (o : Oracle)
    (mode : CouncilMode) (baseRes : List VerifyResult) :
    ItemsOkJF (ContItem pc) (criticismPhase cfg o mode baseRes pc) := by
  simp only [criticismPhase]
  apply iok_seqT
  · intro i hi
    simp only [List.mem_cons, List.not_mem_nil, or_false] at hi
    rcases hi with rfl | rfl | rfl
    · exact ⟨rfl, rfl⟩
    · exact containsSeq_of_decomp
        "Please review this code context and identify bugs or issues.\n\n".data []
        (by simp)
    · exact containsSeq_of_decomp
        "Please review this code context and identify bugs or issues.\n\n".data []
        (by simp)
  · simp [noJFIn, itemIsJF, isJFEv]
  · cases o.gptCritique with
    | error e =>
      cases o.geminiCritique with
      | error e2 => exact iok_afterCritics pc cfg o mode baseRes []
      | ok c =>
        apply iok_writeStep _ _ _ trivial
        apply iok_dbgStep _ _ _ trivial
        apply iok_seqT
        · simp [ContItem, isJSEv, isWarnEv]
        · simp [noJFIn, itemIsJF, isJFEv]
        · exact iok_afterCritics pc cfg o mode baseRes _
    | ok c =>
      apply iok_writeStep _ _ _ trivial
      apply iok_dbgStep _ _ _ trivial
      apply iok_seqT
      · simp [ContItem, isJSEv, isWarnEv]
      · simp [noJFIn, itemIsJF, isJFEv]
      · cases o.geminiCritique with
        | error e2 => exact iok_afterCritics pc cfg o mode baseRes _
        | ok c2 =>
          apply iok_writeStep _ _ _ trivial
          apply iok_dbgStep _ _ _ trivial
          apply iok_seqT
          · simp [ContItem, isJSEv, isWarnEv]
          · simp [noJFIn, itemIsJF, isJFEv]
          · exact iok_afterCritics pc cfg o mode baseRes _

theorem iok_council (cfg : RunCfg) (o : Oracle) (mode : CouncilMode)
    (baseRes : List VerifyResult) (relDisplay bundleJson : List Char) :
    ItemsOkJF (ContItem (promptContextOf cfg relDisplay bundleJson baseRes))
      (councilPhase cfg o mode baseRes relDisplay bundleJson) := by
  unfold councilPhase
  apply iok_stepT _ _ _ (by intro i hi; cases hi) (by intro i hi; cases hi)
  intro _
  apply iok_stepT _ _ _ (by intro i hi; cases hi) (by intro i hi; cases hi)
  intro _
  apply iok_stepT _ _ _ (by intro i hi; cases hi) (by intro i hi; cases hi)
  intro _
  apply iok_stepT _ _ _ (by intro i hi; cases hi) (by intro i hi; cases hi)
  intro _
  exact iok_criticism _ cfg o mode baseRes

theorem iok_verifyBaseline_fix (cfg : RunCfg) (o : Oracle)
    (relDisplay bundleJson : List Char) :
    ItemsOkJF (ContItem (promptContextOf cfg relDisplay bundleJson o.baselineResults))
      (verifyBaselinePhase cfg o CouncilMode.Fix relDisplay bundleJson) := by
  unfold verifyBaselinePhase
  rw [if_pos rfl]
  apply iok_seqT
  · intro i hi
    rcases List.mem_append.mp hi with h | h
    · simp only [List.mem_singleton] at h
      subst h
      exact ⟨rfl, rfl⟩
    · exact contMap _ o.baselineResults i h
  · apply noJFIn_append
    · simp [noJFIn, itemIsJF, isJFEv]
    · exact noJFMap o.baselineResults
  · exact iok_writeStep _ _ _ trivial
      (iok_council cfg o CouncilMode.Fix o.baselineResults relDisplay bundleJson)

theorem iok_verifyBaseline_review (cfg : RunCfg) (o : Oracle)
    (relDisplay bundleJson : List Char) :
    ItemsOkJF (ContItem (promptContextOf cfg relDisplay bundleJson []))
      (verifyBaselinePhase cfg o CouncilMode.Review relDisplay bundleJson) := by
  unfold verifyBaselinePhase
  rw [if_neg (by intro h; cases h)]
  exact iok_council cfg o CouncilMode.Review [] relDisplay bundleJson

/-- Items above the prompt-context construction: neither `JobStarted` nor
`Warning` events (all actions allowed). -/
def TameItem : Item → Prop
  | .ev e => isJSEv e = false ∧ isWarnEv e = false
  | .act _ => True

theorem tame_of_cont {pc : List Char} {i : Item} (h : ContItem pc i) : TameItem i := by
  cases i with
  | ev e => exact h
  | act a => cases a <;> trivial

theorem iokTame_of_iokCont {pc : List Char} {r : RunRes}
    (h : ItemsOkJF (ContItem pc) r) : ItemsOkJF TameItem r :=
  ⟨fun i hi => tame_of_cont (h.1 i hi), h.2⟩

theorem iok_context_tame (cfg : RunCfg) (o : Oracle) (mode : CouncilMode)
    (relDisplay : List Char) :
    ItemsOkJF TameItem (contextPhase cfg o mode relDisplay) := by
  unfold contextPhase
  apply iok_seqT
  · simp [TameItem, isJSEv, isWarnEv]
  · simp [noJFIn, itemIsJF, isJFEv]
  · split
    · apply iok_endWith
      · exact ⟨rfl, rfl⟩
      · simp [TameItem, isJSEv, isWarnEv]
      · simp [noJFIn, itemIsJF, isJFEv]
    · apply iok_stepT
      · simp [TameItem]
      · simp [noJFIn, itemIsJF, isJFEv]
      · intro bundleJson
        apply iok_writeStep _ _ _ trivial
        apply iok_seqT
        · simp [TameItem, isJSEv, isWarnEv]
        · simp [noJFIn, itemIsJF, isJFEv]
        · cases mode with
          | Fix => exact iokTame_of_iokCont (iok_verifyBaseline_fix cfg o relDisplay bundleJson)
          | Review =>
            exact iokTame_of_iokCont (iok_verifyBaseline_review cfg o relDisplay bundleJson)

theorem iok_isolation_tame (cfg : RunCfg) (o : Oracle) (mode : CouncilMode)
    (relDisplay : List Char) :
    ItemsOkJF TameItem (isolationPhase cfg o mode relDisplay) := by
  unfold isolationPhase
  apply iok_seqT
  · simp [TameItem, isJSEv, isWarnEv]
  · simp [noJFIn, itemIsJF, isJFEv]
  · apply iok_stepT
    · simp [TameItem]
    · simp [noJFIn, itemIsJF, isJFEv]
    · intro _
      exact iok_context_tame cfg o mode relDisplay

/-- The continuation of `run_logic` after the `JobStarted` event. -/
def afterStartPart (cfg : RunCfg) (o : Oracle) (tgt : TargetSpec)
    (mode : CouncilMode) : RunRes :=
  writeStep o "job_metadata.json".data <|
  match tgt with
  | .absOutside d =>
    endWith [.ev (.Error "Context".data
        ("Target \x27".data ++ d ++ "\x27 is outside repo root \x27".data ++
         cfg.repoRoot ++ "\x27.".data))]
      .Failure "Target outside repo root".data
  | .rel comps d =>
    if comps.isEmpty then
      endWith [.ev (.Error "Context".data "Target path is empty.".data)]
        .Failure "Invalid target path".data
    else if comps.any unsafeComp then
      endWith [.ev (.Error "Context".data
          ("Target path \x27".data ++ d ++ "\x27 contains unsafe components.".data))]
        .Failure "Invalid target path".data
    else isolationPhase cfg o mode d

theorem runLogicItems_eq (cfg : RunCfg) (o : Oracle) (tgt : TargetSpec)
    (mode : CouncilMode) :
    runLogicItems cfg o tgt mode =
      stepT [.act .gitRevParseHead] o.headSha (fun sha =>
      stepT [.act .gitDiffQuiet] o.dirty (fun dirty =>
      seqT [.ev (.JobStarted cfg.runId mode (targetDisplay tgt) sha dirty)]
        (afterStartPart cfg o tgt mode))) := rfl

theorem iok_afterStart_tame (cfg : RunCfg) (o : Oracle) (tgt : TargetSpec)
    (mode : CouncilMode) : ItemsOkJF TameItem (afterStartPart cfg o tgt mode) := by
  unfold afterStartPart
  apply iok_writeStep _ _ _ trivial
  cases tgt with
  | absOutside d =>
    apply iok_endWith
    · exact ⟨rfl, rfl⟩
    · simp [TameItem, isJSEv, isWarnEv]
    · simp [noJFIn, itemIsJF, isJFEv]
  | rel comps d =>
    dsimp only
    by_cases h1 : comps.isEmpty = true
    · rw [if_pos h1]
      apply iok_endWith
      · exact ⟨rfl, rfl⟩
      · simp [TameItem, isJSEv, isWarnEv]
      · simp [noJFIn, itemIsJF, isJFEv]
    · rw [if_neg h1]
      by_cases h2 : comps.any unsafeComp = true
      · rw [if_pos h2]
        apply iok_endWith
        · exact ⟨rfl, rfl⟩
        · simp [TameItem, isJSEv, isWarnEv]
        · simp [noJFIn, itemIsJF, isJFEv]
      · rw [if_neg h2]
        exact iok_isolation_tame cfg o mode d

theorem mem_eventsOf {tr : Trace} {e : CouncilEvent} :
    e ∈ eventsOf tr ↔ Item.ev e ∈ tr := by
  unfold eventsOf
  rw [List.mem_filterMap]
  constructor
  · rintro ⟨i, hi, hfi⟩
    cases i with
    | ev e2 =>
      simp only [Option.some.injEq] at hfi
      subst hfi
      exact hi
    | act a => simp at hfi
  · intro h
    exact ⟨.ev e, h, rfl⟩

theorem eventsOf_append (a b : Trace) :
    eventsOf (a ++ b) = eventsOf a ++ eventsOf b := by
  unfold eventsOf
  exact List.filterMap_append a b _

theorem events_tame {tr : Trace} (h : ∀ i ∈ tr, TameItem i) :
    ∀ e ∈ eventsOf tr, isJSEv e = false ∧ isWarnEv e = false := by
  intro e he
  exact h (.ev e) (mem_eventsOf.mp he)

theorem eventsOf_cons_act (a : SideAction) (rest : Trace) :
    eventsOf (.act a :: rest) = eventsOf rest := rfl

theorem eventsOf_cons_ev (e : CouncilEvent) (rest : Trace) :
    eventsOf (.ev e :: rest) = e :: eventsOf rest := rfl

/-- Master shape lemma for (the modelled) `run_logic`: the `JobFinished`
discipline holds, `JobStarted` can occur only as the very first event, and no
`Warning` event is ever emitted. -/
theorem runLogic_master (cfg : RunCfg) (o : Oracle) (tgt : TargetSpec)
    (mode : CouncilMode) :
    jfShape (runLogicItems cfg o tgt mode) ∧
    (∀ e ∈ (eventsOf (runLogicItems cfg o tgt mode).1).drop 1, isJSEv e = false) ∧
    (∀ e ∈ eventsOf (runLogicItems cfg o tgt mode).1, isWarnEv e = false) := by
  rw [runLogicItems_eq]
  cases hsha : o.headSha with
  | error e =>
    simp only [stepT]
    refine ⟨⟨fun _ _ => ?_, fun h => absurd h (by simp)⟩, ?_, ?_⟩
    · simp [noJFIn, itemIsJF]
    · simp [eventsOf]
    · simp [eventsOf]
  | ok sha =>
    cases hdirty : o.dirty with
    | error e =>
      simp only [stepT]
      refine ⟨⟨fun _ _ => ?_, fun h => absurd h (by simp)⟩, ?_, ?_⟩
      · simp [noJFIn, itemIsJF]
      · simp [eventsOf]
      · simp [eventsOf]
    | ok dirty =>
      obtain ⟨hQ, hErr, hOk⟩ := iok_afterStart_tame cfg o tgt mode
      simp only [stepT, seqT, List.singleton_append, List.cons_append, List.nil_append]
      refine ⟨⟨?_, ?_⟩, ?_, ?_⟩
      · intro e2 he2 i hi
        simp only [List.mem_cons] at hi
        rcases hi with rfl | rfl | rfl | hi
        · rfl
        · rfl
        · rfl
        · exact hErr e2 he2 i hi
      · intro hok
        obtain ⟨pre, last, hEq, hLast, hNo⟩ := hOk hok
        refine ⟨.act .gitRevParseHead :: .act .gitDiffQuiet ::
          .ev (.JobStarted cfg.runId mode (targetDisplay tgt) sha dirty) :: pre, last,
          by rw [hEq]; simp, hLast, ?_⟩
        intro i hi
        simp only [List.mem_cons] at hi
        rcases hi with rfl | rfl | rfl | hi
        · rfl
        · rfl
        · rfl
        · exact hNo i hi
      · intro e2 he2
        simp only [eventsOf_cons_act, eventsOf_cons_ev, List.drop_succ_cons,
          List.drop_zero] at he2
        exact (events_tame hQ e2 he2).1
      · intro e2 he2
        simp only [eventsOf_cons_act, eventsOf_cons_ev, List.mem_cons] at he2
        rcases he2 with rfl | he2
        · rfl
        · exact (events_tame hQ e2 he2).2

theorem itemIsJF_elim {i : Item} (h : itemIsJF i = true) :
    ∃ out sum, i = .ev (.JobFinished out sum) := by
  cases i with
  | act a => simp [itemIsJF] at h
  | ev e => cases e <;> simp_all [itemIsJF, isJFEv]

theorem getLast?_append_some {α : Type} {b : List α} {x : α} (a : List α)
    (h : b.getLast? = some x) : (a ++ b).getLast? = some x := by
  induction a with
  | nil => simpa using h
  | cons c t ih =>
    rw [List.cons_append]
    cases htb : t ++ b with
    | nil =>
      rcases List.append_eq_nil.mp htb with ⟨_, hb⟩
      subst hb
      simp at h
    | cons y ys =>
      rw [htb] at ih
      rw [List.getLast?_cons_cons]
      exact ih

theorem noJF_take {l : Trace} (k : Nat) (h : noJFIn l) : noJFIn (l.take k) :=
  fun i hi => h i ((List.take_sublist k l).subset hi)

theorem countP_events_zero {tr : Trace} (h : noJFIn tr) :
    (eventsOf tr).countP isJFEv = 0 := by
  rw [List.countP_eq_zero]
  intro e he
  have := h (.ev e) (mem_eventsOf.mp he)
  simpa [itemIsJF] using this

theorem mem_drop_one_append {α : Type} {a b : List α} {e : α}
    (h : e ∈ (a ++ b).drop 1) : e ∈ a.drop 1 ∨ e ∈ b := by
  cases a with
  | nil =>
    right
    simp only [List.nil_append] at h
    exact (List.drop_sublist 1 b).subset h
  | cons x xs =>
    simp only [List.cons_append, List.drop_succ_cons, List.drop_zero] at h
    simp only [List.drop_succ_cons, List.drop_zero]
    exact List.mem_append.mp h

theorem mem_drop_one_pre {α : Type} {a : List α} (b : List α) {e : α}
    (h : e ∈ a.drop 1) : e ∈ (a ++ b).drop 1 := by
  cases a with
  | nil => simp at h
  | cons x xs =>
    simp only [List.drop_succ_cons, List.drop_zero] at h
    simp only [List.cons_append, List.drop_succ_cons, List.drop_zero]
    exact List.mem_append.mpr (Or.inl h)

/-! ## Claim C2 -/

/-- Claim-side event-stream discipline: exactly one `JobFinished`, which is
the last event, and `JobStarted` appears at no position other than the
first. -/
def StreamOk (evs : List CouncilEvent) : Prop :=
  evs.countP isJFEv = 1 ∧
  (∃ out sum, evs.getLast? = some (.JobFinished out sum)) ∧
  (∀ e ∈ evs.drop 1, isJSEv e = false)

theorem c2_full (cfg : RunCfg) (o : Oracle) (tgt : TargetSpec) (mode : CouncilMode) :
    StreamOk (eventsOf ((runLogicItems cfg o tgt mode).1 ++
      errSuffix (runLogicItems cfg o tgt mode).2)) := by
  obtain ⟨⟨hErr, hOk⟩, hJS, _⟩ := runLogic_master cfg o tgt mode
  cases hres : (runLogicItems cfg o tgt mode).2 with
  | ok u =>
    cases u
    obtain ⟨pre, last, hEq, hLast, hNo⟩ := hOk hres
    obtain ⟨out, sum, rfl⟩ := itemIsJF_elim hLast
    simp only [errSuffix, List.append_nil]
    rw [hEq]
    rw [eventsOf_append]
    refine ⟨?_, ?_, ?_⟩
    · rw [List.countP_append, countP_events_zero hNo]
      rfl
    · exact ⟨out, sum, getLast?_append_some _ rfl⟩
    · intro e he
      apply hJS
      rw [hEq, eventsOf_append]
      exact he
  | error e2 =>
    have hNo : noJFIn (runLogicItems cfg o tgt mode).1 := hErr e2 hres
    simp only [errSuffix]
    rw [eventsOf_append]
    refine ⟨?_, ?_, ?_⟩
    · rw [List.countP_append, countP_events_zero hNo]
      rfl
    · exact ⟨.Failure, "Internal Error: ".data ++ e2, getLast?_append_some _ (by simp [eventsOf])⟩
    · intro e he
      rcases mem_drop_one_append he with h | h
      · exact hJS e h
      · simp only [eventsOf, List.filterMap] at h
        rcases List.mem_cons.mp h with rfl | h2
        · rfl
        · rcases List.mem_singleton.mp h2 with rfl
          rfl

theorem c2_cancel (cfg : RunCfg) (o : Oracle) (tgt : TargetSpec) (mode : CouncilMode)
    (k : Nat) (hk : k < (runLogicItems cfg o tgt mode).1.length) :
    StreamOk (eventsOf ((runLogicItems cfg o tgt mode).1.take k ++ [cancelledItem])) := by
  obtain ⟨⟨hErr, hOk⟩, hJS, _⟩ := runLogic_master cfg o tgt mode
  have hNoTake : noJFIn ((runLogicItems cfg o tgt mode).1.take k) := by
    cases hres : (runLogicItems cfg o tgt mode).2 with
    | error e2 => exact noJF_take k (hErr e2 hres)
    | ok u =>
      cases u
      obtain ⟨pre, last, hEq, hLast, hNo⟩ := hOk hres
      rw [hEq]
      rw [hEq] at hk
      simp only [List.length_append, List.length_singleton] at hk
      rw [List.take_append_of_le_length (by omega)]
      exact noJF_take k hNo
  rw [eventsOf_append]
  refine ⟨?_, ?_, ?_⟩
  · rw [List.countP_append, countP_events_zero hNoTake]
    rfl
  · exact ⟨.Cancelled, "Job cancelled by user.".data,
      getLast?_append_some _ (by simp [cancelledItem, eventsOf])⟩
  · intro e he
    rcases mem_drop_one_append he with h | h
    · apply hJS
      have hsplit : (runLogicItems cfg o tgt mode).1 =
          (runLogicItems cfg o tgt mode).1.take k ++
          (runLogicItems cfg o tgt mode).1.drop k := (List.take_append_drop _ _).symm
      rw [hsplit, eventsOf_append]
      exact mem_drop_one_pre _ h
    · rcases List.mem_singleton.mp (by simpa [cancelledItem, eventsOf] using h) with rfl
      rfl

/-- C2 (amended): for every run — any oracle, target, mode, and cancellation
timing — the emitted event stream contains exactly one `JobFinished`, which
is the last event, and no `JobStarted` at any position after the first. (The
original claim's "exactly one `JobStarted`" fails: a cancellation that wins
the race before `run_logic` emits `JobStarted` yields a stream with no
`JobStarted` at all.) -/
theorem c2_event_stream_discipline (cfg : RunCfg) (o : Oracle) (tgt : TargetSpec)
    (mode : CouncilMode) (cancelAt : Option Nat) :
    StreamOk (eventsOf (runItems cfg o tgt mode cancelAt)) := by
  cases cancelAt with
  | none =>
    simp only [runItems]
    exact c2_full cfg o tgt mode
  | some k =>
    simp only [runItems]
    by_cases hk : (runLogicItems cfg o tgt mode).1.length ≤ k
    · rw [if_pos hk]
      exact c2_full cfg o tgt mode
    · rw [if_neg hk]
      exact c2_cancel cfg o tgt mode k (by omega)

def c2Oracle : Oracle :=
  ⟨.ok "deadbeef".data, .ok false, fun _ => .ok (), false, .ok (), true,
   .ok "bundle".data, [], .ok (), .ok (), .ok (), .ok (),
   .ok "crit".data, .ok "crit".data, .ok "plan".data, .ok "impl".data, .ok (), []⟩

def c2Cfg : RunCfg :=
  ⟨"/r".data, "run-1".data, "/r/.council/runs/run-1".data, "v2".data⟩

def c2Target : TargetSpec := .rel [.normal "a.py".data] "a.py".data

/-- C2 counterexample: a run cancelled at the very first suspension point
emits only `JobFinished[Cancelled]` — the stream contains no `JobStarted`,
contradicting "exactly one JobStarted ... preceding all other events". -/
theorem c2_counterexample_cancel_before_start :
    runItems c2Cfg c2Oracle c2Target .Review (some 0) =
      [.ev (.JobFinished .Cancelled "Job cancelled by user.".data)] ∧
    (eventsOf (runItems c2Cfg c2Oracle c2Target .Review (some 0))).countP isJSEv = 0 := by
  constructor
  · rfl
  · rfl

/-! ## Claim C9 -/

def c9Oracle : Oracle :=
  ⟨.ok "deadbeef".data, .ok false, fun _ => .ok (), false, .ok (), true,
   .ok "bundle".data, [], .ok (), .ok (), .ok (), .ok (),
   .ok "crit".data, .ok "crit".data, .ok "plan".data, .ok "impl".data, .ok (), []⟩

def c9Cfg : RunCfg :=
  ⟨"/r".data, "run-1".data, "/r/.council/runs/run-1".data, "v2".data⟩

/-- C9 counterexample: on an empty target the run does emit
`Error{Context}` and `JobFinished[Failure]`, but the very first thing it does
is spawn the `git rev-parse HEAD` subprocess (followed by `git diff --quiet`)
— so the failure does NOT happen "before any subprocess is spawned". -/
theorem c9_counterexample_git_runs_first :
    (runItems c9Cfg c9Oracle (.rel [] "".data) .Fix none).head? =
      some (.act .gitRevParseHead) ∧
    (.act .gitDiffQuiet) ∈ runItems c9Cfg c9Oracle (.rel [] "".data) .Fix none ∧
    (.ev (.Error "Context".data "Target path is empty.".data)) ∈
      runItems c9Cfg c9Oracle (.rel [] "".data) .Fix none ∧
    (eventsOf (runItems c9Cfg c9Oracle (.rel [] "".data) .Fix none)).getLast? =
      some (.JobFinished .Failure "Invalid target path".data) := by
  refine ⟨rfl, ?_, ?_, rfl⟩
  · decide
  · decide

/-- C9 (amended): for every run whose target is empty or whose relative
target contains a `..`, root, or drive-prefix component — provided the two
metadata git commands and the metadata write succeed — the run emits exactly
the two metadata subprocess actions, `JobStarted`, the metadata artifact
write, an `Error` with phase `Context`, and `JobFinished[Failure]`, in that
order; in particular no worktree is created and no verification or LLM call
happens, but the two version-control commands DO run before the target
check. -/
theorem c9_invalid_target_rejected_after_metadata (cfg : RunCfg) (o : Oracle)
    (comps : List PComp) (d : List Char) (mode : CouncilMode)
    (sha : List Char) (dirt : Bool)
    (h1 : o.headSha = .ok sha) (h2 : o.dirty = .ok dirt)
    (h3 : o.writes "job_metadata.json".data = .ok ())
    (hbad : comps.isEmpty = true ∨ comps.any unsafeComp = true) :
    runLogicItems cfg o (.rel comps d) mode =
      ([.act .gitRevParseHead, .act .gitDiffQuiet,
        .ev (.JobStarted cfg.runId mode d sha dirt),
        .act (.fsWrite "job_metadata.json".data),
        .ev (.Error "Context".data
          (if comps.isEmpty then "Target path is empty.".data
           else "Target path \x27".data ++ d ++ "\x27 contains unsafe components.".data)),
        .ev (.JobFinished .Failure "Invalid target path".data)], .ok ()) := by
  rcases hbad with h4 | h4
  · simp [runLogicItems, stepT, seqT, writeStep, endWith, targetDisplay,
      h1, h2, h3, h4]
  · by_cases h5 : comps.isEmpty = true
    · simp [runLogicItems, stepT, seqT, writeStep, endWith, targetDisplay,
        h1, h2, h3, h5]
    · simp [runLogicItems, stepT, seqT, writeStep, endWith, targetDisplay,
        h1, h2, h3, h4, h5]

theorem c9_invalid_target_rejected_after_metadata_witness :
    c9Oracle.headSha = .ok "deadbeef".data ∧
    c9Oracle.dirty = .ok false ∧
    c9Oracle.writes "job_metadata.json".data = .ok () ∧
    (([] : List PComp).isEmpty = true ∨ ([] : List PComp).any unsafeComp = true) ∧
    runLogicItems c9Cfg c9Oracle (.rel [] "".data) .Fix =
      ([.act .gitRevParseHead, .act .gitDiffQuiet,
        .ev (.JobStarted c9Cfg.runId .Fix "".data "deadbeef".data false),
        .act (.fsWrite "job_metadata.json".data),
        .ev (.Error "Context".data
          (if ([] : List PComp).isEmpty then "Target path is empty.".data
           else "Target path \x27".data ++ "".data ++
             "\x27 contains unsafe components.".data)),
        .ev (.JobFinished .Failure "Invalid target path".data)], .ok ()) :=
  ⟨rfl, rfl, rfl, Or.inl rfl,
    c9_invalid_target_rejected_after_metadata c9Cfg c9Oracle [] "".data .Fix
      "deadbeef".data false rfl rfl rfl (Or.inl rfl)⟩

/-- Verification actions contribute no events. -/
theorem eventsOf_actMap (xs : List VerifyResult) :
    eventsOf (xs.map (fun r => Item.act (.runVerify r.command))) = [] := by
  induction xs <;> simp_all [eventsOf]

theorem filterMap_act_runVerify (xs : List VerifyResult) :
    List.filterMap ((fun i => match i with | Item.ev e => some e | Item.act _ => none) ∘
      (fun r => Item.act (SideAction.runVerify r.command))) xs = [] := by
  induction xs <;> simp_all

/-! ## Claim C8 -/

def c8Cfg : RunCfg :=
  ⟨"/r".data, "run-1".data, "/r/.council/runs/run-1".data, "v2".data⟩

def c8Target : TargetSpec := .rel [.normal "a.py".data] "a.py".data

/-- Oracle in which the GPT critic fails and the Gemini critic succeeds. -/
def c8OracleGptFails : Oracle :=
  ⟨.ok "deadbeef".data, .ok false, fun _ => .ok (), false, .ok (), true,
   .ok "bundle".data, [], .ok (), .ok (), .ok (), .ok (),
   .error "boom".data, .ok "crit".data, .ok "plan".data, .ok "impl".data, .ok (), []⟩

/-- C8 counterexample: with exactly one critic failing, the run proceeds on
the surviving critique and finishes successfully — but no `Warning` event is
emitted anywhere in the stream, contradicting "emits a warning". -/
theorem c8_counterexample_no_warning_on_single_failure :
    ((eventsOf (runItems c8Cfg c8OracleGptFails c8Target .Review none)).all
        (fun e => !isWarnEv e)) = true ∧
    (.ev (.PhaseNote "Criticism".data "Gemini critique received.".data)) ∈
      runItems c8Cfg c8OracleGptFails c8Target .Review none ∧
    (eventsOf (runItems c8Cfg c8OracleGptFails c8Target .Review none)).getLast? =
      some (.JobFinished .Success "Critique complete.".data) := by
  refine ⟨?_, ?_, ?_⟩
  · decide
  · decide
  · rfl

/-- C8 (amended): in a run that reaches the Criticism phase, when exactly one
of the two critic calls fails the run tolerates the failure silently — no
`Warning` (indeed no `Warning` is ever emitted on any path) — and proceeds
to the next phase using the surviving critique (`JobFinished[Success]`
"Critique complete." for Review; the Planning phase starts for Fix); when
both critic calls fail the run emits `Error` for the Criticism phase and
`JobFinished[Failure]`, and writes no Planning artifacts. -/
theorem c8_criticism_failure_handling (cfg : RunCfg) (o : Oracle)
    (comps : List PComp) (d : List Char) (mode : CouncilMode)
    (sha bjson : List Char) (dirt : Bool)
    (h1 : o.headSha = .ok sha) (h2 : o.dirty = .ok dirt)
    (hw : ∀ name, o.writes name = .ok ())
    (ht1 : comps.isEmpty = false) (ht2 : comps.any unsafeComp = false)
    (h5 : o.worktreeCreate = .ok ()) (h6 : o.targetExists = true)
    (h7 : o.buildBundle = .ok bjson)
    (hc1 : o.clientChair = .ok ()) (hc2 : o.clientGpt = .ok ())
    (hc3 : o.clientGemini = .ok ()) (hc4 : o.clientImpl = .ok ()) :
    (∀ e ∈ eventsOf (runLogicItems cfg o (.rel comps d) mode).1, isWarnEv e = false) ∧
    (∀ eg cgem, o.gptCritique = .error eg → o.geminiCritique = .ok cgem →
      (.ev (.PhaseNote "Criticism".data "Gemini critique received.".data)) ∈
        (runLogicItems cfg o (.rel comps d) mode).1 ∧
      (mode = CouncilMode.Review →
        (eventsOf (runLogicItems cfg o (.rel comps d) mode).1).getLast? =
          some (.JobFinished .Success "Critique complete.".data)) ∧
      (mode = CouncilMode.Fix →
        (.ev (.PhaseStarted "Planning".data 1 1 "Chair is formulating a plan...".data)) ∈
          (runLogicItems cfg o (.rel comps d) mode).1)) ∧
    (∀ cgpt eh, o.gptCritique = .ok cgpt → o.geminiCritique = .error eh →
      (.ev (.PhaseNote "Criticism".data "GPT critique received.".data)) ∈
        (runLogicItems cfg o (.rel comps d) mode).1 ∧
      (mode = CouncilMode.Review →
        (eventsOf (runLogicItems cfg o (.rel comps d) mode).1).getLast? =
          some (.JobFinished .Success "Critique complete.".data)) ∧
      (mode = CouncilMode.Fix →
        (.ev (.PhaseStarted "Planning".data 1 1 "Chair is formulating a plan...".data)) ∈
          (runLogicItems cfg o (.rel comps d) mode).1)) ∧
    (∀ eg eh, o.gptCritique = .error eg → o.geminiCritique = .error eh →
      (.ev (.Error "Criticism".data "All critics failed to respond.".data)) ∈
        (runLogicItems cfg o (.rel comps d) mode).1 ∧
      (eventsOf (runLogicItems cfg o (.rel comps d) mode).1).getLast? =
        some (.JobFinished .Failure "Critics failed".data) ∧
      (.act (.fsWrite "plan_raw.md".data)) ∉ (runLogicItems cfg o (.rel comps d) mode).1 ∧
      (.act (.fsWrite "plan.md".data)) ∉ (runLogicItems cfg o (.rel comps d) mode).1 ∧
      (.ev (.PhaseStarted "Planning".data 1 1 "Chair is formulating a plan...".data)) ∉
        (runLogicItems cfg o (.rel comps d) mode).1) := by
  refine ⟨(runLogic_master cfg o (.rel comps d) mode).2.2, ?_, ?_, ?_⟩
  · intro eg cgem hg hgem
    cases hdbg : o.debugEnv <;> cases mode <;>
      simp [runLogicItems, stepT, seqT, writeStep, dbgStep, endWith, targetDisplay,
        isolationPhase, contextPhase, verifyBaselinePhase, councilPhase, criticismPhase,
        planningPhase, eventsOf, eventsOf_actMap, filterMap_act_runVerify,
        h1, h2, hw, ht1, ht2, h5, h6, h7, hc1, hc2, hc3, hc4, hg, hgem, hdbg]
  · intro cgpt eh hg hgem
    cases hdbg : o.debugEnv <;> cases mode <;>
      simp [runLogicItems, stepT, seqT, writeStep, dbgStep, endWith, targetDisplay,
        isolationPhase, contextPhase, verifyBaselinePhase, councilPhase, criticismPhase,
        planningPhase, eventsOf, eventsOf_actMap, filterMap_act_runVerify,
        h1, h2, hw, ht1, ht2, h5, h6, h7, hc1, hc2, hc3, hc4, hg, hgem, hdbg]
  · intro eg eh hg hgem
    cases hdbg : o.debugEnv <;> cases mode <;>
      simp [runLogicItems, stepT, seqT, writeStep, dbgStep, endWith, targetDisplay,
        isolationPhase, contextPhase, verifyBaselinePhase, councilPhase, criticismPhase,
        eventsOf, eventsOf_actMap, filterMap_act_runVerify,
        h1, h2, hw, ht1, ht2, h5, h6, h7, hc1, hc2, hc3, hc4, hg, hgem, hdbg]

/-! ## Claim C3 -/

/-- Claim-side outcome: Success if final failures are fewer than baseline,
Success if equal, Failure if greater. -/
def c3Outcome (b f : Nat) : JobOutcome :=
  if f < b then .Success else if f = b then .Success else .Failure

/-- Claim-side summary string: `Base failures: <b>, Final failures: <f>`. -/
def c3Summary (b f : Nat) : List Char :=
  "Base failures: ".data ++ (Nat.repr b).data ++
    ", Final failures: ".data ++ (Nat.repr f).data

theorem c3Outcome_eq (b f : Nat) :
    (if f < b then JobOutcome.Success
     else if f > b then JobOutcome.Failure
     else JobOutcome.Success) = c3Outcome b f := by
  unfold c3Outcome
  by_cases h1 : f < b
  · simp [h1]
  · by_cases h2 : f > b
    · have h3 : ¬(f = b) := by omega
      simp [h1, h2, h3]
    · have h3 : f = b := by omega
      simp [h1, h2, h3]

set_option maxRecDepth 16000 in
set_option maxHeartbeats 2000000 in
/-- C3: a Fix run that reaches the final verification finishes with
`JobFinished` whose outcome is Success when final failures are fewer than or
equal to baseline failures and Failure when they exceed them, and whose
summary line is exactly `Base failures: <b>, Final failures: <f>`. -/
theorem c3_fix_outcome_comparison (cfg : RunCfg) (o : Oracle)
    (comps : List PComp) (d : List Char)
    (sha bjson cg cgem chairOut implOut : List Char) (dirt : Bool)
    (h1 : o.headSha = .ok sha) (h2 : o.dirty = .ok dirt)
    (hw : ∀ name, o.writes name = .ok ())
    (ht1 : comps.isEmpty = false) (ht2 : comps.any unsafeComp = false)
    (h5 : o.worktreeCreate = .ok ()) (h6 : o.targetExists = true)
    (h7 : o.buildBundle = .ok bjson)
    (hc1 : o.clientChair = .ok ()) (hc2 : o.clientGpt = .ok ())
    (hc3 : o.clientGemini = .ok ()) (hc4 : o.clientImpl = .ok ())
    (hg : o.gptCritique = .ok cg) (hgem : o.geminiCritique = .ok cgem)
    (h10 : o.chairOut = .ok chairOut)
    (hplan : cfg.promptVersion = "v2".data → extract_plan chairOut = none →
      extract_error chairOut = none)
    (h12 : o.implOut = .ok implOut)
    (hlk : cfg.promptVersion = "v2".data →
      looks_like_apply_patch (extractPatchContent implOut) = true)
    (hvp : validate_patch_paths (extractPatchContent implOut) = .ok ())
    (h15 : o.applyRes = .ok ()) :
    (runLogicItems cfg o (.rel comps d) .Fix).2 = .ok () ∧
    (eventsOf (runLogicItems cfg o (.rel comps d) .Fix).1).getLast? =
      some (.JobFinished
        (c3Outcome (countFailures o.baselineResults) (countFailures o.finalResults))
        (c3Summary (countFailures o.baselineResults) (countFailures o.finalResults))) := by
  by_cases hv2 : cfg.promptVersion = "v2".data
  · have hlk2 := hlk hv2
    rcases hpe : extract_plan chairOut with _ | cleanPlan
    · have herr := hplan hv2 hpe
      cases hdbg : o.debugEnv <;>
        simp [runLogicItems, stepT, seqT, writeStep, dbgStep, endWith, targetDisplay,
          isolationPhase, contextPhase, verifyBaselinePhase, councilPhase, criticismPhase,
          planningPhase, implementationPhase, patchGatePhase, applyVerifyPhase,
          comparePhase, eventsOf, eventsOf_actMap, filterMap_act_runVerify,
          c3Outcome_eq, c3Summary,
          h1, h2, hw, ht1, ht2, h5, h6, h7, hc1, hc2, hc3, hc4, hg, hgem, h10, h12,
          hv2, hpe, herr, hlk2, hvp, h15, hdbg]
    · cases hdbg : o.debugEnv <;>
        simp [runLogicItems, stepT, seqT, writeStep, dbgStep, endWith, targetDisplay,
          isolationPhase, contextPhase, verifyBaselinePhase, councilPhase, criticismPhase,
          planningPhase, implementationPhase, patchGatePhase, applyVerifyPhase,
          comparePhase, eventsOf, eventsOf_actMap, filterMap_act_runVerify,
          c3Outcome_eq, c3Summary,
          h1, h2, hw, ht1, ht2, h5, h6, h7, hc1, hc2, hc3, hc4, hg, hgem, h10, h12,
          hv2, hpe, hlk2, hvp, h15, hdbg]
  · cases hdbg : o.debugEnv <;>
      simp [runLogicItems, stepT, seqT, writeStep, dbgStep, endWith, targetDisplay,
        isolationPhase, contextPhase, verifyBaselinePhase, councilPhase, criticismPhase,
        planningPhase, implementationPhase, patchGatePhase, applyVerifyPhase,
        comparePhase, eventsOf, eventsOf_actMap, filterMap_act_runVerify,
        c3Outcome_eq, c3Summary,
        h1, h2, hw, ht1, ht2, h5, h6, h7, hc1, hc2, hc3, hc4, hg, hgem, h10, h12,
        hv2, hvp, h15, hdbg]

def c3Cfg : RunCfg :=
  ⟨"/r".data, "run-1".data, "/r/.council/runs/run-1".data, "v2".data⟩

def c3Patch : List Char :=
  "*** Begin Patch\n*** Add File: a.py\n+x\n*** End Patch".data

def c3Oracle : Oracle :=
  ⟨.ok "deadbeef".data, .ok false, fun _ => .ok (), false, .ok (), true,
   .ok "bundle".data, [], .ok (), .ok (), .ok (), .ok (),
   .ok "crit".data, .ok "crit".data, .ok "plan".data, .ok c3Patch, .ok (), []⟩

theorem c3_fix_outcome_comparison_witness :
    c3Oracle.headSha = .ok "deadbeef".data ∧
    validate_patch_paths (extractPatchContent c3Patch) = .ok () ∧
    ((runLogicItems c3Cfg c3Oracle (.rel [.normal "a.py".data] "a.py".data) .Fix).2 =
        .ok () ∧
      (eventsOf (runLogicItems c3Cfg c3Oracle
          (.rel [.normal "a.py".data] "a.py".data) .Fix).1).getLast? =
        some (.JobFinished
          (c3Outcome (countFailures c3Oracle.baselineResults)
            (countFailures c3Oracle.finalResults))
          (c3Summary (countFailures c3Oracle.baselineResults)
            (countFailures c3Oracle.finalResults)))) :=
  ⟨rfl, by rfl,
    c3_fix_outcome_comparison c3Cfg c3Oracle [.normal "a.py".data] "a.py".data
      "deadbeef".data "bundle".data "crit".data "crit".data "plan".data c3Patch false
      rfl rfl (fun _ => rfl) rfl rfl rfl rfl rfl rfl rfl rfl rfl rfl rfl rfl
      (fun _ _ => rfl) rfl (fun _ => by decide) (by rfl) rfl⟩

/-! ## Claim C6 -/

def c6Cfg : RunCfg :=
  ⟨"/r".data, "run-1".data, "/r/.council/runs/run-1".data, "v2".data⟩

/-- A bundle JSON crafted so that removing the one literal occurrence of the
worktree path `/r/.council/worktrees/run-1` re-creates that very string from
the surrounding text. -/
def c6Bundle : List Char :=
  "/r/.council/worktrees/run/r/.council/worktrees/run-1-1".data

def c6Oracle : Oracle :=
  ⟨.ok "deadbeef".data, .ok false, fun _ => .ok (), false, .ok (), true,
   .ok c6Bundle, [], .ok (), .ok (), .ok (), .ok (),
   .ok "crit".data, .ok "crit".data, .ok "plan".data, .ok "impl".data, .ok (), []⟩

def c6Target : TargetSpec := .rel [.normal "a.py".data] "a.py".data

/-- C6 counterexample: the single-pass literal replacement can re-create the
worktree path from the bundle text around a removed occurrence, so the
prompt-context string handed to the critics still contains the absolute
worktree path. -/
theorem c6_counterexample_prompt_contains_worktree_path :
    ((runItems c6Cfg c6Oracle c6Target .Review none).any (fun i =>
      match i with
      | .act (.llmCall _ msg) => containsSeq msg (worktreePathStr c6Cfg)
      | _ => false)) = true := by
  decide

set_option maxRecDepth 16000 in
set_option maxHeartbeats 2000000 in
/-- C6 (amended): in every run reaching the Criticism phase, all LLM calls
(critics, chair, implementer) receive a message containing, verbatim, the
single prompt-context string; its context-bundle section is the bundle JSON
with one left-to-right pass of non-overlapping literal replacement of the
absolute worktree path by the empty string, while the target header and the
serialized baseline results are included unmodified — so the prompt is not
guaranteed to be free of the worktree path (it may survive via the baseline
output or reappear across removal boundaries). When the worktree path does
not occur in the bundle JSON at all, the bundle is embedded unchanged. -/
theorem c6_prompt_context_assembly (cfg : RunCfg) (o : Oracle)
    (comps : List PComp) (d : List Char) (mode : CouncilMode)
    (sha bjson : List Char) (dirt : Bool)
    (h1 : o.headSha = .ok sha) (h2 : o.dirty = .ok dirt)
    (hw : ∀ name, o.writes name = .ok ())
    (ht1 : comps.isEmpty = false) (ht2 : comps.any unsafeComp = false)
    (h5 : o.worktreeCreate = .ok ()) (h6 : o.targetExists = true)
    (h7 : o.buildBundle = .ok bjson)
    (hc1 : o.clientChair = .ok ()) (hc2 : o.clientGpt = .ok ())
    (hc3 : o.clientGemini = .ok ()) (hc4 : o.clientImpl = .ok ()) :
    (∀ role msg, (.act (.llmCall role msg)) ∈ (runLogicItems cfg o (.rel comps d) mode).1 →
      containsSeq msg (promptContextOf cfg d bjson
        (if mode = CouncilMode.Fix then o.baselineResults else [])) = true) ∧
    (∀ relD bj baseRes, containsSeq bj (worktreePathStr cfg) = false →
      promptContextOf cfg relD bj baseRes =
        "Target: \"".data ++ relD ++ "\"\n\nContext Bundle:\n".data ++ bj ++
          "\n\nBaseline Verification Results:\n".data ++ serVerify baseRes) := by
  constructor
  · intro role msg
    have hsplit : ∀ baseRes,
        (.act (.llmCall role msg)) ∈ (criticismPhase cfg o mode baseRes
          (promptContextOf cfg d bjson baseRes)).1 →
        containsSeq msg (promptContextOf cfg d bjson baseRes) = true := by
      intro baseRes hmem2
      exact (iok_criticism (promptContextOf cfg d bjson baseRes) cfg o mode baseRes).1
        _ hmem2
    cases mode with
    | Fix =>
      intro hmem
      rw [if_pos rfl]
      apply hsplit
      simp only [runLogicItems, stepT, seqT, writeStep, endWith, targetDisplay,
        isolationPhase, contextPhase, verifyBaselinePhase, councilPhase,
        h1, h2, hw, ht1, ht2, h5, h6, h7, hc1, hc2, hc3, hc4] at hmem
      simp at hmem
      exact hmem
    | Review =>
      intro hmem
      rw [if_neg (by intro hcontra; cases hcontra)]
      apply hsplit
      simp only [runLogicItems, stepT, seqT, writeStep, endWith, targetDisplay,
        isolationPhase, contextPhase, verifyBaselinePhase, councilPhase,
        h1, h2, hw, ht1, ht2, h5, h6, h7, hc1, hc2, hc3, hc4] at hmem
      simp at hmem
      exact hmem
  · intro relD bj baseRes hnc
    simp only [promptContextOf]
    cases hwt : (worktreePathStr cfg).isEmpty with
    | true => simp
    | false => simp [replaceAll_of_not_contains bj (worktreePathStr cfg) [] hnc]

theorem c6_prompt_context_assembly_witness :
    c6Oracle.headSha = .ok "deadbeef".data ∧
    c6Oracle.buildBundle = .ok c6Bundle ∧
    ((∀ role msg, (.act (.llmCall role msg)) ∈
        (runLogicItems c6Cfg c6Oracle
          (.rel [.normal "a.py".data] "a.py".data) .Review).1 →
      containsSeq msg (promptContextOf c6Cfg "a.py".data c6Bundle
        (if CouncilMode.Review = CouncilMode.Fix then c6Oracle.baselineResults
         else [])) = true) ∧
     (∀ relD bj baseRes, containsSeq bj (worktreePathStr c6Cfg) = false →
      promptContextOf c6Cfg relD bj baseRes =
        "Target: \"".data ++ relD ++ "\"\n\nContext Bundle:\n".data ++ bj ++
          "\n\nBaseline Verification Results:\n".data ++ serVerify baseRes)) :=
  ⟨rfl, rfl,
    c6_prompt_context_assembly c6Cfg c6Oracle [.normal "a.py".data] "a.py".data
      .Review "deadbeef".data c6Bundle false
      rfl rfl (fun _ => rfl) rfl rfl rfl rfl rfl rfl rfl rfl rfl⟩

/-! ## Claim C4 -/

def c4Cfg : RunCfg :=
  ⟨"/r".data, "run-1".data, "/r/.council/runs/run-1".data, "v2".data⟩

def c4Oracle : Oracle :=
  ⟨.ok "deadbeef".data, .ok false, fun _ => .ok (), false, .ok (), true,
   .ok "bundle".data, [], .ok (), .ok (), .ok (), .ok (),
   .ok "crit".data, .ok "crit".data, .ok "plan".data, .ok "impl".data, .ok (), []⟩

def c4Target : TargetSpec := .rel [.normal "a.py".data] "a.py".data

/-- C4 (code bug): a successful Review run creates the worktree but performs
no removal of any kind before exiting — `run_logic` merely binds the
`Worktree` value to `_worktree_guard`, the struct has no `Drop` impl, and
`Worktree::remove` is never called, so neither a `git worktree remove` nor a
manual directory removal ever happens on any exit path of the run. -/
theorem c4_worktree_left_behind :
    (.act (.worktreeAdd (worktreePathStr c4Cfg))) ∈
      runItems c4Cfg c4Oracle c4Target .Review none ∧
    ((runItems c4Cfg c4Oracle c4Target .Review none).all (fun i =>
      match i with
      | .act (.worktreeRemove _) => false
      | .act (.removeDirAll _) => false
      | _ => true)) = true ∧
    (eventsOf (runItems c4Cfg c4Oracle c4Target .Review none)).getLast? =
      some (.JobFinished .Success "Critique complete.".data) := by
  refine ⟨?_, ?_, rfl⟩
  · decide
  · decide

theorem c8_criticism_failure_handling_witness :
    c8OracleGptFails.headSha = .ok "deadbeef".data ∧
    (∀ name, c8OracleGptFails.writes name = .ok ()) ∧
    (∀ eg cgem, c8OracleGptFails.gptCritique = .error eg →
      c8OracleGptFails.geminiCritique = .ok cgem →
      (.ev (.PhaseNote "Criticism".data "Gemini critique received.".data)) ∈
        (runLogicItems c8Cfg c8OracleGptFails (.rel [.normal "a.py".data] "a.py".data)
          .Review).1) :=
  ⟨rfl, fun _ => rfl, fun eg cgem hg hgem =>
    ((c8_criticism_failure_handling c8Cfg c8OracleGptFails [.normal "a.py".data]
      "a.py".data .Review "deadbeef".data "bundle".data false rfl rfl (fun _ => rfl)
      rfl rfl rfl rfl rfl rfl rfl rfl rfl).2.1 eg cgem hg hgem).1⟩

end Council
